import Mathlib

/-!
IPL Hide: extraction of instance placements and the three renderers.

A shallow embedding of `Main.cpp` (class `VcMp::App`): the tokenizer `Explode`,
the line loop of `Extract`, and the render loops of `BuildXML`, `BuildNUT` and
`BuildRAW`, together with the parts of the C and C++ standard library they call
(`std::isspace`, `std::stoi`, `std::stod`, `std::floor`, `std::snprintf`).

Conventions of the embedding:

* a `std::string` or C string is a `List Char`, one `Char` per byte;
* a file is the list of the lines that successive `std::getline` calls return;
* a `double` is an IEEE-754 binary64 value, kept as sign and magnitude, the
  magnitude counted in units of `2^-1074` (the smallest subnormal), so that every
  finite double has exactly one representation and arithmetic is integer
  arithmetic;
* `fl_alert` dialogs are collected, in order, in a list of `Alert`s;
* undefined behaviour (the conversion of an out-of-range `double` to `int`) is
  the result `none`.
-/

set_option exponentiation.threshold 4000
set_option maxRecDepth 100000

namespace VcMp

/-- A `std::string`, one `Char` per byte. -/
abbrev Str := List Char

/-! ## IEEE-754 binary64 -/

/-- A `double`: `finite neg mag` is `(-1)^neg * mag * 2^-1074`. -/
inductive Dbl where
  | finite (neg : Bool) (mag : Nat)
  | inf (neg : Bool)
  | nan (neg : Bool)
deriving DecidableEq, Repr

/-- The number of `2^-1074` units in `1.0`. -/
def Dbl.one : Nat := 2 ^ 1074

/-- The first magnitude that is no longer finite: `2^1024` in units of `2^-1074`. -/
def Dbl.huge : Nat := 2 ^ 2098

/-- Number of binary digits of `n` by binary search over the bit positions below
`2^k`: exact for `n < 2^(2^k)`. -/
def bitLengthAux : Nat → Nat → Nat
  | 0, n => if n = 0 then 0 else 1
  | k + 1, n =>
    if 2 ^ (2 ^ k) ≤ n then 2 ^ k + bitLengthAux k (n / 2 ^ (2 ^ k)) else bitLengthAux k n

/-- Number of binary digits of `n` (`0` for `0`), for `n < 2^4096`; every magnitude
that does not overflow is in that range. -/
def bitLength (n : Nat) : Nat := bitLengthAux 12 n

/-- Round the rational `n / d` (in units of `2^-1074`, below `2^4096`) to the nearest
magnitude with at most 53 significant bits, ties to the even significand. -/
def roundRatio (n d : Nat) : Nat :=
  let s := bitLength (n / d) - 53
  let d' := d * 2 ^ s
  let q := n / d'
  let r := n % d'
  (if d' < 2 * r ∨ (2 * r = d' ∧ q % 2 = 1) then q + 1 else q) * 2 ^ s

/-- The double of sign `neg` nearest to `n / d` units; overflow gives infinity. -/
def Dbl.ofRatio (neg : Bool) (n d : Nat) : Dbl :=
  if Dbl.huge ≤ n / d then Dbl.inf neg
  else if Dbl.huge ≤ roundRatio n d then Dbl.inf neg
  else Dbl.finite neg (roundRatio n d)

/-- The product `x * 10.0`. -/
def Dbl.mulTen : Dbl → Dbl
  | .finite neg mag => Dbl.ofRatio neg (10 * mag) 1
  | .inf neg => .inf neg
  | .nan neg => .nan neg

/-- The library function `std::floor`. -/
def Dbl.floor : Dbl → Dbl
  | .finite false mag => .finite false (mag / Dbl.one * Dbl.one)
  | .finite true mag => .finite true ((mag + (Dbl.one - 1)) / Dbl.one * Dbl.one)
  | .inf neg => .inf neg
  | .nan neg => .nan neg

/-- The sum `x + 0.5`. -/
def Dbl.addHalf : Dbl → Dbl
  | .finite false mag => Dbl.ofRatio false (mag + Dbl.one / 2) 1
  | .finite true mag =>
      if mag ≤ Dbl.one / 2 then Dbl.ofRatio false (Dbl.one / 2 - mag) 1
      else Dbl.ofRatio true (mag - Dbl.one / 2) 1
  | .inf neg => .inf neg
  | .nan neg => .nan neg

/-- Smallest value of `int`. -/
def INT_MIN : Int := -2147483648

/-- Largest value of `int`. -/
def INT_MAX : Int := 2147483647

/-- The conversion `static_cast< int >(x)`: truncation toward zero; the behaviour is
undefined (`none`) when the truncated value is not an `int`. -/
def Dbl.toInt : Dbl → Option Int
  | .finite neg mag =>
      let t : Int := if neg then -((mag / Dbl.one : Nat) : Int) else ((mag / Dbl.one : Nat) : Int)
      if INT_MIN ≤ t ∧ t ≤ INT_MAX then some t else none
  | .inf _ => none
  | .nan _ => none

/-- The integer part `⌊x⌋` of a finite double, as an integer. -/
def Dbl.floorInt : Dbl → Option Int
  | .finite false mag => some ((mag / Dbl.one : Nat) : Int)
  | .finite true mag => some (-(((mag + (Dbl.one - 1)) / Dbl.one : Nat) : Int))
  | .inf _ => none
  | .nan _ => none

/-! ## Characters and number parsing -/

/-- The library function `std::isspace` in the "C" locale. -/
def isspace (c : Char) : Bool :=
  c == ' ' || c == '\t' || c == '\n' || c == '\x0b' || c == '\x0c' || c == '\r'

/-- Decimal digit test (`isdigit`). -/
def isdigit (c : Char) : Bool := decide ('0' ≤ c ∧ c ≤ '9')

/-- Hexadecimal digit test (`isxdigit`). -/
def isxdigit (c : Char) : Bool :=
  isdigit c || decide ('a' ≤ c ∧ c ≤ 'f') || decide ('A' ≤ c ∧ c ≤ 'F')

/-- Value of one digit character in a base up to 16. -/
def digitVal (c : Char) : Nat :=
  if isdigit c then c.toNat - 48
  else if decide ('a' ≤ c ∧ c ≤ 'f') then c.toNat - 87
  else c.toNat - 55

/-- Value of a digit string in the given base. -/
def digitsVal (base : Nat) (ds : Str) : Nat :=
  ds.foldl (fun acc c => base * acc + digitVal c) 0

/-- An optional sign in front of a number: whether it is `-`, and what follows it. -/
def scanSign : Str → Bool × Str
  | '-' :: r => (true, r)
  | '+' :: r => (false, r)
  | s => (false, s)

/-- The call `std::stoi(str, nullptr, 10)`: leading white space is skipped, an optional
sign and the longest run of decimal digits are read, what follows is ignored.
`none` stands for the exception thrown when there is no digit
(`std::invalid_argument`) or the value is not an `int` (`std::out_of_range`). -/
def stoi (str : Str) : Option Int :=
  let (neg, s) := scanSign (str.dropWhile isspace)
  let ds := s.takeWhile isdigit
  if ds = [] then none
  else
    let v : Int := if neg then -(digitsVal 10 ds : Nat) else (digitsVal 10 ds : Nat)
    if INT_MIN ≤ v ∧ v ≤ INT_MAX then some v else none

/-- The significand of a floating literal: digits, optionally a `.` and more digits.
Returns all the digits read and how many of them follow the point. -/
def scanSignificand (isDig : Char → Bool) (s : Str) : Str × Nat × Str :=
  match s.dropWhile isDig with
  | '.' :: r => (s.takeWhile isDig ++ r.takeWhile isDig, (r.takeWhile isDig).length,
      r.dropWhile isDig)
  | r => (s.takeWhile isDig, 0, r)

/-- The exponent part of a floating literal: the marker (`e` or `p`, either case), an
optional sign and at least one decimal digit; `0` when there is no such part. -/
def scanExponent (marker : Char) : Str → Int
  | [] => 0
  | c :: r =>
    if c.toLower = marker then
      let (neg, r') := scanSign r
      let ds := r'.takeWhile isdigit
      if ds = [] then 0
      else if neg then -(digitsVal 10 ds : Nat) else (digitsVal 10 ds : Nat)
    else 0

/-- The result of `strtod` for the exact value `n / d` (in units of `2^-1074`) of sign
`neg`: the nearest double; `none` when `errno` is set to `ERANGE`, which is on
overflow and, as in glibc, when the result is tiny and inexact. -/
def strtodRound (neg : Bool) (n d : Nat) : Option Dbl :=
  if Dbl.huge ≤ n / d then none
  else if Dbl.huge ≤ roundRatio n d then none
  else if 4 * n < (2 ^ 54 - 1) * d ∧ roundRatio n d * d ≠ n then none
  else some (Dbl.finite neg (roundRatio n d))

/-- A decimal floating literal without its sign: value `M * 10^(E - k)`. -/
def scanDecimal (neg : Bool) (s : Str) : Option Dbl :=
  let (ds, k, r) := scanSignificand isdigit s
  if ds = [] then none
  else
    let e : Int := scanExponent 'e' r - k
    strtodRound neg (digitsVal 10 ds * Dbl.one * 10 ^ e.toNat) (10 ^ (-e).toNat)

/-- A hexadecimal floating literal after its `0x`: value `M * 2^(E - 4k)`. -/
def scanHex (neg : Bool) (s : Str) : Option Dbl :=
  let (ds, k, r) := scanSignificand isxdigit s
  if ds = [] then none
  else
    let e : Int := scanExponent 'p' r - 4 * k
    strtodRound neg (digitsVal 16 ds * Dbl.one * 2 ^ e.toNat) (2 ^ (-e).toNat)

/-- The call `std::stod(str, nullptr)`: leading white space is skipped and the longest
initial floating literal (decimal, hexadecimal, `inf`, `nan`) is converted, what
follows is ignored. `none` stands for the exception thrown when nothing can be
converted (`std::invalid_argument`) or `strtod` reports `ERANGE`
(`std::out_of_range`). -/
def stod (str : Str) : Option Dbl :=
  let (neg, s) := scanSign (str.dropWhile isspace)
  match s with
  | '0' :: x :: r =>
    if x.toLower = 'x' ∧ (scanSignificand isxdigit r).1 ≠ [] then scanHex neg r
    else scanDecimal neg s
  | a :: b :: c :: _ =>
    if [a.toLower, b.toLower, c.toLower] = ['i', 'n', 'f'] then some (Dbl.inf neg)
    else if [a.toLower, b.toLower, c.toLower] = ['n', 'a', 'n'] then some (Dbl.nan neg)
    else scanDecimal neg s
  | _ => scanDecimal neg s

/-! ## Formatting -/

/-- The conversion `%d` of `snprintf`. -/
def fmtD (n : Int) : Str :=
  if n < 0 then '-' :: Nat.toDigits 10 n.natAbs else Nat.toDigits 10 n.natAbs

/-- Six decimal digits, zero padded. -/
def pad6 (n : Nat) : Str :=
  List.replicate (6 - (Nat.toDigits 10 n).length) '0' ++ Nat.toDigits 10 n

/-- The conversion `%f` of `snprintf`: six fractional digits, the exact value rounded
to the nearest millionth, ties to even. -/
def fmtF : Dbl → Str
  | .finite neg mag =>
    let q := mag * 10 ^ 6 / Dbl.one
    let r := mag * 10 ^ 6 % Dbl.one
    let k := if Dbl.one < 2 * r ∨ (2 * r = Dbl.one ∧ q % 2 = 1) then q + 1 else q
    (if neg then ['-'] else []) ++ Nat.toDigits 10 (k / 10 ^ 6) ++ '.' :: pad6 (k % 10 ^ 6)
  | .inf neg => if neg then "-inf".toList else "inf".toList
  | .nan neg => if neg then "-nan".toList else "nan".toList

/-! ## Data model -/

/-- An instance in the IPL file (`App::Instance`). -/
structure Instance where
  mID : Int
  mX : Dbl
  mY : Dbl
  mZ : Dbl
deriving DecidableEq, Repr

/-- A dialog shown with `fl_alert`, with the line number it prints. -/
inductive Alert where
  | noFileSelected
  | unableToOpen
  | tokenizing (lnum : Nat)
  | wrongTokenCount (lnum : Nat)
  | unableToExtract (lnum : Nat)
  | formatError (lnum : Nat)
  | bufferOverflow (lnum : Nat)
deriving DecidableEq, Repr

/-- The state of the window that the conversions read and write: the input path
widget (`none` is a null pointer), the function name widget (the C string that
`m_FuncName->value()` points to), the text of the output buffer, and the alerts shown
so far. -/
structure App where
  m_InputPath : Option Str
  m_FuncName : Str
  m_OutputBuffer : Str
  alerts : List Alert
deriving DecidableEq, Repr

/-- Show a dialog (`fl_alert`). -/
def App.alert (app : App) (a : Alert) : App := { app with alerts := app.alerts ++ [a] }

/-! ## Tokenizer -/

/-- The classification table of `App::Tokens`: the classic table, in which `,` and the
blank are (re)marked as space. The result is whether the character is white space for
a stream imbued with it. -/
def Tokens.get_table (c : Char) : Bool :=
  if c = ',' ∨ c = ' ' then true else isspace c

/-- The extractions `ss >> token` that the `std::istream_iterator` of `Explode`
performs until one fails: each skips white space and reads up to the next white
space. `cur` holds the characters of the token being read, last one first. -/
def readTokens : Str → Str → List Str
  | [], cur => if cur = [] then [] else [cur.reverse]
  | c :: cs, cur =>
    if Tokens.get_table c then
      if cur = [] then readTokens cs [] else cur.reverse :: readTokens cs []
    else readTokens cs (c :: cur)

/-- Explode the specified instance definition into individual values
(`App::Explode`). -/
def Explode (str : Str) : List Str := readTokens str []

/-! ## Extraction -/

/-- The characters that represent a space in `App::Extract`, as `find_first_not_of`
reads the array: a C string, which ends at its NUL. -/
def schars : Str := [' ', '\t', '\n', '\x0b', '\x0c', '\r']

/-- The call `line.front()`; on an empty string it reads the terminating NUL. -/
def front (line : Str) : Char := line.headD '\x00'

/-- The call `line.find_first_not_of(chars)`; `none` is `npos`. -/
def find_first_not_of (line : Str) (chars : Str) : Option Nat :=
  match line with
  | [] => none
  | c :: cs => if c ∈ chars then (find_first_not_of cs chars).map (· + 1) else some 0

/-- The first statement of the loop body of `App::Extract`: the line without its
leading space, or `none` when the line is skipped because it holds nothing else. -/
def stripLine (line : Str) : Option Str :=
  if isspace (front line) then
    match find_first_not_of line schars with
    | none => none
    | some pos => some (line.drop pos)
  else some line

/-- The local variables of `App::Extract` that live across lines, and the alerts
shown. -/
structure ExtractState where
  in_inst : Bool
  lnum : Nat
  inst_list : List Instance
  alerts : List Alert
deriving DecidableEq, Repr

/-- One iteration of the `while (std::getline(iplfile, line))` loop of `App::Extract`.
The flag is `true` when the iteration leaves the loop with `break`. -/
def extractLine (st0 : ExtractState) (line0 : Str) : ExtractState × Bool :=
  let st := { st0 with lnum := st0.lnum + 1 }
  match stripLine line0 with
  | none => (st, false)
  | some line =>
    if front line = '#' then (st, false)
    else if st.in_inst ∧ line = "end".toList then (st, true)
    else if st.in_inst then
      let args := Explode line
      if args.length < 6 then
        ({ st with alerts := st.alerts ++ [Alert.wrongTokenCount st.lnum] }, false)
      else
        match stoi (args.getD 0 []), stod (args.getD 3 []), stod (args.getD 4 []),
            stod (args.getD 5 []) with
        | some id, some x, some y, some z =>
          ({ st with inst_list := st.inst_list ++ [Instance.mk id x y z] }, false)
        | _, _, _, _ =>
          ({ st with alerts := st.alerts ++ [Alert.unableToExtract st.lnum] }, false)
    else if line = "inst".toList then ({ st with in_inst := true }, false)
    else (st, false)

/-- The `while (std::getline(iplfile, line))` loop of `App::Extract` over the lines of
the file. -/
def extractLoop (st : ExtractState) : List Str → ExtractState
  | [] => st
  | line :: rest =>
    if (extractLine st line).2 then (extractLine st line).1
    else extractLoop (extractLine st line).1 rest

/-- Extract the values from the specified IPL file (`App::Extract`). `files` gives,
for each path that can be opened, the lines of the file. The result is the returned
flag, the instance list, and the window with the alerts shown. -/
def Extract (files : Str → Option (List Str)) (app : App) (inst_list : List Instance) :
    Bool × List Instance × App :=
  match app.m_InputPath with
  | none => (false, inst_list, app.alert Alert.noFileSelected)
  | some [] => (false, inst_list, app.alert Alert.noFileSelected)
  | some iplpath =>
    match files iplpath with
    | none => (false, inst_list, app.alert Alert.unableToOpen)
    | some lines =>
      let st := extractLoop ⟨false, 0, inst_list, app.alerts⟩ lines
      (st.in_inst && !st.inst_list.isEmpty, st.inst_list, { app with alerts := st.alerts })

/-! ## Renderers -/

/-- The call `std::snprintf(buffer, size, ...)` for the formatted text `text`: the
returned count is the length of the whole text, the buffer receives at most
`size - 1` characters of it. -/
def snprintf (size : Nat) (text : Str) : Int × Str :=
  ((text.length : Int), text.take (size - 1))

/-- The text that the format of `App::BuildXML` describes for one instance. -/
def xmlText (inst : Instance) : Str :=
  "<rule model=\"".toList ++ fmtD inst.mID ++ "\">\n\t<position x=\"".toList ++ fmtF inst.mX
    ++ "\" y=\"".toList ++ fmtF inst.mY ++ "\" z=\"".toList ++ fmtF inst.mZ
    ++ "\" />\n</rule>\n".toList

/-- The text that the format of `App::BuildNUT` describes for one instance. -/
def nutText (funcName : Str) (inst : Instance) : Str :=
  funcName ++ "(".toList ++ fmtD inst.mID ++ ", ".toList ++ fmtF inst.mX ++ ", ".toList
    ++ fmtF inst.mY ++ ", ".toList ++ fmtF inst.mZ ++ ");\n".toList

/-- The computed coordinate of `App::BuildRAW`:
`static_cast< int >(std::floor(v * 10.0) + 0.5)`. -/
def rawCoord (v : Dbl) : Option Int := v.mulTen.floor.addHalf.toInt

/-- The text that the format of `App::BuildRAW` describes for one instance; `none`
when a coordinate conversion has undefined behaviour. -/
def rawText (funcName : Str) (inst : Instance) : Option Str :=
  match rawCoord inst.mX, rawCoord inst.mY, rawCoord inst.mZ with
  | some x, some y, some z =>
    some (funcName ++ "(".toList ++ fmtD inst.mID ++ ", ".toList ++ fmtD x ++ ", ".toList
      ++ fmtD y ++ ", ".toList ++ fmtD z ++ ");\n".toList)
  | _, _, _ => none

/-- The loop `for (const auto & inst : inst_list)` shared by the three `Build`
functions, `format` being the text their `snprintf` call formats. `lnum` is the line
count before the iteration. -/
def buildLoop (format : Instance → Option Str) (lnum : Nat) (app : App) :
    List Instance → Option App
  | [] => some app
  | inst :: rest =>
    match format inst with
    | none => none
    | some text =>
      if (snprintf 512 text).1 < 0 then some (app.alert (Alert.formatError (lnum + 1)))
      else if (snprintf 512 text).1.toNat > 512 then
        some (app.alert (Alert.bufferOverflow (lnum + 1)))
      else
        buildLoop format (lnum + 1)
          { app with m_OutputBuffer := app.m_OutputBuffer ++ (snprintf 512 text).2 } rest

/-- What the `Build` functions do once the instance list is extracted: clear the
output buffer, then run the loop. -/
def render (format : Instance → Option Str) (app : App) (inst_list : List Instance) :
    Option App :=
  buildLoop format 0 { app with m_OutputBuffer := [] } inst_list

/-- The three conversions. -/
inductive Mode where
  | xml
  | nut
  | raw
deriving DecidableEq, Repr

/-- The text that the `snprintf` call of a conversion formats for one instance. -/
def Mode.format : Mode → Str → Instance → Option Str
  | .xml, _ => fun inst => some (xmlText inst)
  | .nut, funcName => fun inst => some (nutText funcName inst)
  | .raw, funcName => rawText funcName

/-- The common body of `App::BuildXML`, `App::BuildNUT` and `App::BuildRAW`: extract
into a fresh list, return when there is nothing to process, otherwise render. -/
def Build (mode : Mode) (files : Str → Option (List Str)) (app : App) : Option App :=
  if (Extract files app []).1 then
    render (mode.format app.m_FuncName) (Extract files app []).2.2 (Extract files app []).2.1
  else some (Extract files app []).2.2

/-- Generate XML output from the selected IPL file (`App::BuildXML`). -/
def BuildXML (files : Str → Option (List Str)) (app : App) : Option App :=
  Build Mode.xml files app

/-- Generate NUT output from the selected IPL file (`App::BuildNUT`). -/
def BuildNUT (files : Str → Option (List Str)) (app : App) : Option App :=
  Build Mode.nut files app

/-- Generate RAW NUT output from the selected IPL file (`App::BuildRAW`). -/
def BuildRAW (files : Str → Option (List Str)) (app : App) : Option App :=
  Build Mode.raw files app

/-! ## Definitions that follow the words of the specification -/

/-- The scaled coordinate as the specification writes it: `floor(v * 10.0 + 0.5)`,
truncated to an integer. -/
def specCoord (v : Dbl) : Option Int := v.mulTen.addHalf.floor.toInt

/-- The separator predicate of the specification: comma or space. -/
def isCommaOrSpace (c : Char) : Bool := c == ',' || c == ' '

/-- The tokens of the specification for a separator predicate: the non-empty pieces
of the line between separators, in order. -/
def splitRuns (isSep : Char → Bool) (line : Str) : List Str :=
  (line.splitOnP isSep).filter (fun t => !t.isEmpty)

/-- A line made of fields, each followed by its run of separators. -/
def joinFields : List Str → List Str → Str
  | f :: fs, s :: ss => f ++ s ++ joinFields fs ss
  | _, _ => []

/-- The concatenation of texts, in sequence order. -/
def concatTexts : List Str → Str
  | [] => []
  | t :: ts => t ++ concatTexts ts

/-- A file system that holds one file. -/
def oneFile (path : Str) (lines : List Str) : Str → Option (List Str) :=
  fun p => if p = path then some lines else none

/-- The alert `a` is the warning that the line `line`, read as line number `k`, raises
when it is tokenized: the wrong number of tokens when it has fewer than six, unable to
extract when one of the four conversions fails. -/
def lineWarning (a : Alert) (k : Nat) (line : Str) : Prop :=
  (a = Alert.wrongTokenCount k ∧ (Explode line).length < 6) ∨
  (a = Alert.unableToExtract k ∧ 6 ≤ (Explode line).length ∧
    (stoi ((Explode line).getD 0 []) = none ∨ stod ((Explode line).getD 3 []) = none ∨
      stod ((Explode line).getD 4 []) = none ∨ stod ((Explode line).getD 5 []) = none))

/-- The lines of a file that lie inside the instance section: those after the first
line that trims to `inst`, up to the first of them that trims to `end`. -/
def sectionBody (lines : List Str) : List Str :=
  ((lines.dropWhile (fun l => !decide (stripLine l = some ['i', 'n', 's', 't']))).drop 1).takeWhile
    (fun l => !decide (stripLine l = some ['e', 'n', 'd']))

/-- A line that is skipped neither as blank nor as comment. -/
def notSkipped (line : Str) : Bool :=
  match stripLine line with
  | none => false
  | some l => !decide (front l = '#')

/-! ## Lemmas on the tokenizer -/

theorem isspace_eq_true_iff (c : Char) :
    isspace c = true ↔ c = ' ' ∨ c = '\t' ∨ c = '\n' ∨ c = '\x0b' ∨ c = '\x0c' ∨ c = '\r' := by
  unfold isspace
  simp only [Bool.or_eq_true, beq_iff_eq]
  tauto

theorem get_table_eq_true_iff (c : Char) :
    Tokens.get_table c = true ↔ c ∈ [',', ' ', '\t', '\n', '\x0b', '\x0c', '\r'] := by
  simp only [List.mem_cons, List.mem_singleton, List.not_mem_nil, or_false]
  unfold Tokens.get_table
  split_ifs with h
  · rcases h with h | h <;> simp [h]
  · rw [isspace_eq_true_iff]
    tauto

theorem isspace_get_table {c : Char} (h : isspace c = true) : Tokens.get_table c = true := by
  unfold Tokens.get_table
  split_ifs <;> simp [h]

theorem readTokens_eq_filter_go (l acc : Str) :
    readTokens l acc = (List.splitOnP.go Tokens.get_table l acc).filter (fun t => !t.isEmpty) := by
  induction l generalizing acc with
  | nil =>
    cases acc with
    | nil => simp [readTokens, List.splitOnP.go]
    | cons a as =>
      have h : (as.reverse ++ [a]).isEmpty = false := by
        cases h' : as.reverse <;> simp
      simp [readTokens, List.splitOnP.go, List.filter, h]
  | cons c cs ih =>
    by_cases hc : Tokens.get_table c = true
    · cases acc with
      | nil => simp [readTokens, List.splitOnP.go, hc, ih, List.filter]
      | cons a as => simp [readTokens, List.splitOnP.go, hc, ih, List.filter]
    · simp [readTokens, List.splitOnP.go, hc, ih]

theorem readTokens_mem (l acc : Str) (t : Str) (ht : t ∈ readTokens l acc) :
    t ≠ [] ∧ ∀ c ∈ t, Tokens.get_table c = false ∨ c ∈ acc := by
  induction l generalizing acc with
  | nil =>
    by_cases hacc : acc = []
    · simp [readTokens, hacc] at ht
    · simp only [readTokens, hacc, if_false, List.mem_singleton] at ht
      subst ht
      refine ⟨by simpa using hacc, fun c hc => Or.inr (by simpa using hc)⟩
  | cons c cs ih =>
    by_cases hc : Tokens.get_table c = true
    · by_cases hacc : acc = []
      · simp only [readTokens, hc, hacc, if_true] at ht
        obtain ⟨h1, h2⟩ := ih [] ht
        exact ⟨h1, fun c hc => Or.inl (by simpa using h2 c hc)⟩
      · simp only [readTokens, hc, hacc, if_true, if_false, List.mem_cons] at ht
        rcases ht with ht | ht
        · subst ht
          refine ⟨by simpa using hacc, fun c hc => Or.inr (by simpa using hc)⟩
        · obtain ⟨h1, h2⟩ := ih [] ht
          exact ⟨h1, fun c hc => Or.inl (by simpa using h2 c hc)⟩
    · simp only [readTokens, hc] at ht
      obtain ⟨h1, h2⟩ := ih (c :: acc) ht
      refine ⟨h1, fun d hd => ?_⟩
      rcases h2 d hd with h | h
      · exact Or.inl h
      · rcases List.mem_cons.mp h with h | h
        · subst h
          exact Or.inl (by simpa using hc)
        · exact Or.inr h

theorem readTokens_sep_run (s rest : Str) (hs : ∀ c ∈ s, Tokens.get_table c = true) :
    readTokens (s ++ rest) [] = readTokens rest [] := by
  induction s with
  | nil => rfl
  | cons c cs ih =>
    have hc : Tokens.get_table c = true := hs c (List.mem_cons_self _ _)
    simp only [List.cons_append, readTokens, hc, if_true]
    exact ih (fun d hd => hs d (List.mem_cons_of_mem _ hd))

theorem readTokens_field (f rest cur : Str) (hf : ∀ c ∈ f, Tokens.get_table c = false) :
    readTokens (f ++ rest) cur = readTokens rest (f.reverse ++ cur) := by
  induction f generalizing cur with
  | nil => rfl
  | cons c cs ih =>
    have hc : Tokens.get_table c = false := hf c (List.mem_cons_self _ _)
    simp only [List.cons_append, readTokens, hc, List.reverse_cons, List.append_assoc,
      List.singleton_append]
    exact ih (c :: cur) (fun d hd => hf d (List.mem_cons_of_mem _ hd))

theorem readTokens_field_sep (f s rest : Str) (hne : f ≠ [])
    (hf : ∀ c ∈ f, Tokens.get_table c = false) (hs : ∀ c ∈ s, Tokens.get_table c = true)
    (hlast : s ≠ [] ∨ rest = []) :
    readTokens (f ++ s ++ rest) [] = f :: readTokens rest [] := by
  have hrev : f.reverse ≠ [] := by simpa using hne
  rw [List.append_assoc, readTokens_field f (s ++ rest) [] hf, List.append_nil]
  cases s with
  | nil =>
    rcases hlast with h | h
    · exact absurd rfl h
    · subst h
      simp [readTokens, hne]
  | cons c cs =>
    have hc : Tokens.get_table c = true := hs c (List.mem_cons_self _ _)
    simp only [List.cons_append, readTokens, hc, hrev, if_true, if_false, List.reverse_reverse]
    exact congrArg (f :: ·)
      (readTokens_sep_run cs rest (fun d hd => hs d (List.mem_cons_of_mem _ hd)))

theorem readTokens_joinFields (fields seps : List Str) (trail : Str)
    (hf : ∀ f ∈ fields, f ≠ [] ∧ ∀ c ∈ f, Tokens.get_table c = false)
    (hs : ∀ s ∈ seps, s ≠ [] ∧ ∀ c ∈ s, Tokens.get_table c = true)
    (hlen : seps.length + 1 = fields.length)
    (htrail : ∀ c ∈ trail, Tokens.get_table c = true) :
    readTokens (joinFields fields (seps ++ [trail])) [] = fields := by
  induction fields generalizing seps with
  | nil => simp at hlen
  | cons f fs ih =>
    obtain ⟨hfne, hfc⟩ := hf f (List.mem_cons_self _ _)
    cases seps with
    | nil =>
      have hfs : fs = [] := by
        cases fs with
        | nil => rfl
        | cons a as => simp at hlen
      subst hfs
      simp only [List.nil_append, joinFields]
      rw [readTokens_field_sep f trail [] hfne hfc htrail (Or.inr rfl)]
      rfl
    | cons s ss =>
      obtain ⟨hsne, hsc⟩ := hs s (List.mem_cons_self _ _)
      simp only [List.cons_append, joinFields]
      rw [readTokens_field_sep f s _ hfne hfc hsc (Or.inl hsne)]
      exact congrArg (f :: ·) (ih ss (fun g hg => hf g (List.mem_cons_of_mem _ hg))
        (fun t ht => hs t (List.mem_cons_of_mem _ ht)) (by simpa using hlen))

theorem readTokens_cur (r cur : Str) (hcur : cur ≠ []) :
    ∃ t ts, readTokens r cur = (cur.reverse ++ t) :: ts := by
  induction r generalizing cur with
  | nil => exact ⟨[], [], by simp [readTokens, hcur]⟩
  | cons c cs ih =>
    by_cases hc : Tokens.get_table c = true
    · exact ⟨[], readTokens cs [], by simp [readTokens, hc, hcur]⟩
    · obtain ⟨t, ts, h⟩ := ih (c :: cur) (List.cons_ne_nil _ _)
      exact ⟨c :: t, ts, by simp [readTokens, hc, h]⟩

theorem Explode_cons_of_not_sep (c : Char) (r : Str) (hc : Tokens.get_table c = false) :
    ∃ t ts, Explode (c :: r) = (c :: t) :: ts := by
  obtain ⟨t, ts, h⟩ := readTokens_cur r [c] (List.cons_ne_nil _ _)
  exact ⟨t, ts, by simp [Explode, readTokens, hc, h]⟩

/-! ## Lemmas on the leading space of a line -/

theorem mem_schars_iff (c : Char) : c ∈ schars ↔ isspace c = true := by
  rw [isspace_eq_true_iff]
  simp [schars]

theorem find_first_not_of_some (l : Str) (pos : Nat)
    (h : find_first_not_of l schars = some pos) :
    ∃ ws, l = ws ++ l.drop pos ∧ (∀ c ∈ ws, isspace c = true) ∧ l.drop pos ≠ [] ∧
      isspace (front (l.drop pos)) = false := by
  induction l generalizing pos with
  | nil => simp [find_first_not_of] at h
  | cons c cs ih =>
    by_cases hc : c ∈ schars
    · simp only [find_first_not_of, hc, if_true, Option.map_eq_some'] at h
      obtain ⟨p, hp, rfl⟩ := h
      obtain ⟨ws, h1, h2, h3, h4⟩ := ih p hp
      refine ⟨c :: ws, ?_, ?_, ?_, ?_⟩
      · simpa using h1
      · intro d hd
        rcases List.mem_cons.mp hd with hd | hd
        · subst hd
          exact (mem_schars_iff _).mp hc
        · exact h2 d hd
      · simpa using h3
      · simpa using h4
    · simp only [find_first_not_of, hc, if_false, Option.some.injEq] at h
      subst h
      refine ⟨[], rfl, by simp, by simp, ?_⟩
      have : ¬ isspace c = true := fun h => hc ((mem_schars_iff _).mpr h)
      simpa [front] using this

theorem find_first_not_of_none (l : Str) (h : find_first_not_of l schars = none) :
    ∀ c ∈ l, isspace c = true := by
  induction l with
  | nil => simp
  | cons c cs ih =>
    by_cases hc : c ∈ schars
    · simp only [find_first_not_of, hc, if_true, Option.map_eq_none'] at h
      intro d hd
      rcases List.mem_cons.mp hd with hd | hd
      · subst hd
        exact (mem_schars_iff _).mp hc
      · exact ih h d hd
    · simp [find_first_not_of, hc] at h

/-- What `stripLine` keeps: a non-empty remainder that starts with a character other
than a space, after a run of spaces; or the whole line when it is empty. -/
theorem stripLine_some (l l' : Str) (h : stripLine l = some l') :
    ∃ ws, l = ws ++ l' ∧ (∀ c ∈ ws, isspace c = true) ∧ isspace (front l') = false := by
  unfold stripLine at h
  split_ifs at h with hsp
  · cases hf : find_first_not_of l schars with
    | none => simp [hf] at h
    | some pos =>
      simp only [hf, Option.some.injEq] at h
      obtain ⟨ws, h1, h2, _, h4⟩ := find_first_not_of_some l pos hf
      rw [h] at h1 h4
      exact ⟨ws, h1, h2, h4⟩
  · simp only [Option.some.injEq] at h
    subst h
    exact ⟨[], rfl, by simp, by simpa using hsp⟩

theorem stripLine_none (l : Str) (h : stripLine l = none) : ∀ c ∈ l, isspace c = true := by
  unfold stripLine at h
  split_ifs at h with hsp
  cases hf : find_first_not_of l schars with
  | none => exact find_first_not_of_none l hf
  | some pos => simp [hf] at h

theorem Explode_stripLine (l l' : Str) (h : stripLine l = some l') : Explode l' = Explode l := by
  obtain ⟨ws, h1, h2, _⟩ := stripLine_some l l' h
  rw [h1]
  exact (readTokens_sep_run ws l' (fun c hc => isspace_get_table (h2 c hc))).symm

theorem Explode_of_stripLine_none (l : Str) (h : stripLine l = none) : Explode l = [] := by
  have := readTokens_sep_run l [] (fun c hc => isspace_get_table (stripLine_none l h c hc))
  simpa [Explode, readTokens] using this

/-! ## Lemmas on one iteration of the extraction loop -/

theorem front_eq_hash (l : Str) (h : front l = '#') : ∃ r, l = '#' :: r := by
  cases l with
  | nil => exact absurd h (by decide)
  | cons c r => exact ⟨r, by simpa [front] using h⟩

theorem stoi_hash (r : Str) : stoi ('#' :: r) = none := rfl

theorem extractLine_blank (st : ExtractState) (line : Str) (h : stripLine line = none) :
    extractLine st line = (⟨st.in_inst, st.lnum + 1, st.inst_list, st.alerts⟩, false) := by
  simp [extractLine, h]

theorem extractLine_comment (st : ExtractState) (line l : Str) (h : stripLine line = some l)
    (hc : front l = '#') :
    extractLine st line = (⟨st.in_inst, st.lnum + 1, st.inst_list, st.alerts⟩, false) := by
  simp [extractLine, h, hc]

theorem extractLine_outside (st : ExtractState) (line : Str) (hin : st.in_inst = false) :
    extractLine st line =
      (⟨decide (stripLine line = some "inst".toList), st.lnum + 1, st.inst_list, st.alerts⟩,
        false) := by
  cases h : stripLine line with
  | none => simp [extractLine, h, hin]
  | some l =>
    by_cases hc : front l = '#'
    · have hne : ¬ l = ['i', 'n', 's', 't'] := by
        rintro rfl
        exact absurd hc (by decide)
      simp [extractLine, h, hc, hin, hne]
    · by_cases hi : l = ['i', 'n', 's', 't']
      · subst hi
        simp [extractLine, h, hin, front]
      · simp [extractLine, h, hc, hin, hi]

theorem extractLine_end (st : ExtractState) (line : Str) (hin : st.in_inst = true)
    (h : stripLine line = some "end".toList) :
    extractLine st line = (⟨true, st.lnum + 1, st.inst_list, st.alerts⟩, true) := by
  simp [extractLine, h, hin, front]

/-- The iteration for a line of the instance section that is tokenized. -/
theorem extractLine_data (st : ExtractState) (line l : Str) (hin : st.in_inst = true)
    (h : stripLine line = some l) (hc : front l ≠ '#') (he : l ≠ "end".toList) :
    extractLine st line =
      if (Explode line).length < 6 then
        (⟨true, st.lnum + 1, st.inst_list, st.alerts ++ [Alert.wrongTokenCount (st.lnum + 1)]⟩,
          false)
      else
        match stoi ((Explode line).getD 0 []), stod ((Explode line).getD 3 []),
            stod ((Explode line).getD 4 []), stod ((Explode line).getD 5 []) with
        | some id, some x, some y, some z =>
          (⟨true, st.lnum + 1, st.inst_list ++ [Instance.mk id x y z], st.alerts⟩, false)
        | _, _, _, _ =>
          (⟨true, st.lnum + 1, st.inst_list,
            st.alerts ++ [Alert.unableToExtract (st.lnum + 1)]⟩, false) := by
  rw [← Explode_stripLine line l h]
  simp only [extractLine, h, hc, hin, he, if_false, and_false, if_true]

/-- A line of the instance section with at least six tokens, of which the first, the
fourth, the fifth and the sixth convert, appends one instance. -/
theorem extractLine_record (st : ExtractState) (line a0 a1 a2 a3 a4 a5 : Str)
    (more : List Str) (id : Int) (x y z : Dbl) (hin : st.in_inst = true)
    (htok : Explode line = a0 :: a1 :: a2 :: a3 :: a4 :: a5 :: more)
    (hid : stoi a0 = some id) (hx : stod a3 = some x) (hy : stod a4 = some y)
    (hz : stod a5 = some z) :
    extractLine st line =
      (⟨true, st.lnum + 1, st.inst_list ++ [Instance.mk id x y z], st.alerts⟩, false) := by
  cases h : stripLine line with
  | none =>
    rw [Explode_of_stripLine_none line h] at htok
    exact absurd htok (by simp)
  | some l =>
    have hl : Explode l = a0 :: a1 :: a2 :: a3 :: a4 :: a5 :: more := by
      rw [Explode_stripLine line l h, htok]
    have hc : front l ≠ '#' := by
      intro hc
      obtain ⟨r, rfl⟩ := front_eq_hash l hc
      obtain ⟨t, ts, ht⟩ := Explode_cons_of_not_sep '#' r (by decide)
      rw [ht] at hl
      have h0 : a0 = '#' :: t := by
        have := (List.cons.inj hl).1
        exact this.symm
      rw [h0, stoi_hash] at hid
      exact absurd hid (by simp)
    have he : l ≠ "end".toList := by
      rintro rfl
      have : Explode "end".toList = ["end".toList] := by decide
      rw [this] at hl
      simp at hl
    rw [extractLine_data st line l hin h hc he, htok]
    simp [hid, hx, hy, hz]

/-! ## Lemmas on the extraction loop -/

theorem extractLoop_cons_continue (st st' : ExtractState) (line : Str) (rest : List Str)
    (h : extractLine st line = (st', false)) :
    extractLoop st (line :: rest) = extractLoop st' rest := by
  simp [extractLoop, h]

theorem extractLoop_cons_break (st st' : ExtractState) (line : Str) (rest : List Str)
    (h : extractLine st line = (st', true)) :
    extractLoop st (line :: rest) = st' := by
  simp [extractLoop, h]

theorem extractLine_in_inst (st : ExtractState) (line : Str) (hin : st.in_inst = true) :
    (extractLine st line).1.in_inst = true := by
  unfold extractLine
  simp only [hin]
  repeat' split
  all_goals simp

theorem extractLoop_in_inst (st : ExtractState) (lines : List Str) (hin : st.in_inst = true) :
    (extractLoop st lines).in_inst = true := by
  induction lines generalizing st with
  | nil => exact hin
  | cons l ls ih =>
    unfold extractLoop
    split
    · exact extractLine_in_inst st l hin
    · exact ih _ (extractLine_in_inst st l hin)

/-- Outside the instance section, lines that do not trim to `inst` are only counted. -/
theorem extractLoop_outside_skip (st : ExtractState) (front_lines rest : List Str)
    (hin : st.in_inst = false)
    (hpre : ∀ l ∈ front_lines, stripLine l ≠ some ['i', 'n', 's', 't']) :
    extractLoop st (front_lines ++ rest)
      = extractLoop ⟨false, st.lnum + front_lines.length, st.inst_list, st.alerts⟩ rest := by
  induction front_lines generalizing st with
  | nil => simp [← hin]
  | cons l ls ih =>
    have hl : stripLine l ≠ some ['i', 'n', 's', 't'] := hpre l (List.mem_cons_self _ _)
    have hstep : extractLine st l = (⟨false, st.lnum + 1, st.inst_list, st.alerts⟩, false) := by
      rw [extractLine_outside st l hin]
      simp [hl]
    rw [List.cons_append, extractLoop_cons_continue _ _ _ _ hstep,
      ih _ rfl (fun m hm => hpre m (List.mem_cons_of_mem _ hm))]
    simp [Nat.add_assoc, Nat.add_comm 1]

/-- Outside the instance section, a line that trims to `inst` opens the section. -/
theorem extractLine_inst (st : ExtractState) (line : Str) (hin : st.in_inst = false)
    (h : stripLine line = some ['i', 'n', 's', 't']) :
    extractLine st line = (⟨true, st.lnum + 1, st.inst_list, st.alerts⟩, false) := by
  rw [extractLine_outside st line hin]
  simp [h]

/-- The section flag, the instance list and the `break` of an iteration do not depend
on the line count nor on the alerts shown before. -/
theorem extractLine_congr (st st' : ExtractState) (line : Str)
    (hin : st.in_inst = st'.in_inst) (hlist : st.inst_list = st'.inst_list) :
    (extractLine st line).2 = (extractLine st' line).2 ∧
    (extractLine st line).1.in_inst = (extractLine st' line).1.in_inst ∧
    (extractLine st line).1.inst_list = (extractLine st' line).1.inst_list := by
  unfold extractLine
  simp only [hin, hlist]
  repeat' split
  all_goals simp_all

theorem extractLoop_congr (st st' : ExtractState) (lines : List Str)
    (hin : st.in_inst = st'.in_inst) (hlist : st.inst_list = st'.inst_list) :
    (extractLoop st lines).in_inst = (extractLoop st' lines).in_inst ∧
    (extractLoop st lines).inst_list = (extractLoop st' lines).inst_list := by
  induction lines generalizing st st' with
  | nil => exact ⟨hin, hlist⟩
  | cons l ls ih =>
    obtain ⟨h1, h2, h3⟩ := extractLine_congr st st' l hin hlist
    unfold extractLoop
    rw [h1]
    split
    · exact ⟨h2, h3⟩
    · exact ih _ _ h2 h3

/-- Inside the instance section, nothing after the closing `end` is read. -/
theorem extractLoop_end (st : ExtractState) (body rest : List Str) (hin : st.in_inst = true) :
    extractLoop st (body ++ ['e', 'n', 'd'] :: rest) = extractLoop st (body ++ [['e', 'n', 'd']]) := by
  induction body generalizing st with
  | nil =>
    have h := extractLine_end st ['e', 'n', 'd'] hin (by decide)
    rw [List.nil_append, List.nil_append, extractLoop_cons_break _ _ _ _ h,
      extractLoop_cons_break _ _ _ _ h]
  | cons l ls ih =>
    simp only [List.cons_append, extractLoop]
    split
    · rfl
    · exact ih _ (extractLine_in_inst st l hin)

/-- The section is open at the end of the loop exactly when it was open at the start
or some line trims to `inst`. -/
theorem extractLoop_in_inst_iff (st : ExtractState) (lines : List Str)
    (hin : st.in_inst = false) :
    (extractLoop st lines).in_inst = true ↔ ∃ l ∈ lines, stripLine l = some ['i', 'n', 's', 't'] := by
  induction lines generalizing st with
  | nil => simp [extractLoop, hin]
  | cons l ls ih =>
    by_cases hl : stripLine l = some ['i', 'n', 's', 't']
    · rw [extractLoop_cons_continue _ _ _ _ (extractLine_inst st l hin hl)]
      exact ⟨fun _ => ⟨l, List.mem_cons_self _ _, hl⟩, fun _ => extractLoop_in_inst _ _ rfl⟩
    · have hstep : extractLine st l = (⟨false, st.lnum + 1, st.inst_list, st.alerts⟩, false) := by
        rw [extractLine_outside st l hin]
        simp [hl]
      rw [extractLoop_cons_continue _ _ _ _ hstep, ih _ rfl]
      constructor
      · rintro ⟨m, hm, h⟩
        exact ⟨m, List.mem_cons_of_mem _ hm, h⟩
      · rintro ⟨m, hm, h⟩
        rcases List.mem_cons.mp hm with rfl | hm
        · exact absurd h hl
        · exact ⟨m, hm, h⟩

/-- The result of `Extract` when the path is given and the file opens. -/
theorem Extract_opened (files : Str → Option (List Str)) (app : App) (path : Str)
    (lines : List Str) (inst_list : List Instance) (hpath : app.m_InputPath = some path)
    (hne : path ≠ []) (hfile : files path = some lines) :
    Extract files app inst_list =
      ((extractLoop ⟨false, 0, inst_list, app.alerts⟩ lines).in_inst &&
          !(extractLoop ⟨false, 0, inst_list, app.alerts⟩ lines).inst_list.isEmpty,
        (extractLoop ⟨false, 0, inst_list, app.alerts⟩ lines).inst_list,
        { app with alerts := (extractLoop ⟨false, 0, inst_list, app.alerts⟩ lines).alerts }) := by
  unfold Extract
  rw [hpath]
  cases path with
  | nil => exact absurd rfl hne
  | cons c cs => simp [hfile]

theorem oneFile_self (path : Str) (lines : List Str) : oneFile path lines path = some lines := by
  simp [oneFile]

/-! ## Lemmas on the render loop -/

theorem buildLoop_cons_fits (format : Instance → Option Str) (lnum : Nat) (app : App)
    (p : Instance) (rest : List Instance) (u : Str) (hu : format p = some u)
    (hlen : u.length ≤ 512) :
    buildLoop format lnum app (p :: rest)
      = buildLoop format (lnum + 1)
          { app with m_OutputBuffer := app.m_OutputBuffer ++ u.take 511 } rest := by
  have h1 : ¬ ((u.length : Int) < 0) := by omega
  have h2 : ¬ (u.length > 512) := by omega
  simp [buildLoop, hu, snprintf, h1, h2]

/-- While the formatted texts are at most 512 long the loop goes on, appending what
`snprintf` left in the buffer. -/
theorem buildLoop_append (format : Instance → Option Str) (lnum : Nat) (app : App)
    (done rest : List Instance)
    (hdone : ∀ p ∈ done, ∃ u, format p = some u ∧ u.length ≤ 512) :
    buildLoop format lnum app (done ++ rest)
      = buildLoop format (lnum + done.length)
          { app with m_OutputBuffer := app.m_OutputBuffer
              ++ concatTexts (done.map (fun p => ((format p).getD []).take 511)) } rest := by
  induction done generalizing lnum app with
  | nil => simp [concatTexts]
  | cons p ps ih =>
    obtain ⟨u, hu, hlen⟩ := hdone p (List.mem_cons_self _ _)
    rw [List.cons_append, buildLoop_cons_fits format lnum app p _ u hu hlen,
      ih (lnum + 1) _ (fun q hq => hdone q (List.mem_cons_of_mem _ hq))]
    simp [concatTexts, hu, Nat.add_assoc, Nat.add_comm 1]

/-- A formatted text longer than 512 ends the loop with the overflow alert. -/
theorem buildLoop_overflow (format : Instance → Option Str) (lnum : Nat) (app : App)
    (r : Instance) (rest : List Instance) (t : Str) (hr : format r = some t)
    (hlong : 512 < t.length) :
    buildLoop format lnum app (r :: rest) = some (app.alert (Alert.bufferOverflow (lnum + 1))) := by
  have h1 : ¬ ((t.length : Int) < 0) := by omega
  simp [buildLoop, hr, snprintf, h1, hlong]

/-! ## Lemmas on rounding -/

theorem bitLengthAux_le (k n L : Nat) (h : n < 2 ^ L) : bitLengthAux k n ≤ L := by
  induction k generalizing n L with
  | zero =>
    unfold bitLengthAux
    split_ifs with h0
    · exact Nat.zero_le _
    · cases L with
      | zero => simp at h; exact absurd h h0
      | succ L => omega
  | succ k ih =>
    unfold bitLengthAux
    split_ifs with hge
    · have hlt : 2 ^ k < L := by
        by_contra hcon
        have : 2 ^ L ≤ 2 ^ (2 ^ k) := Nat.pow_le_pow_right (by norm_num) (by omega)
        omega
      have hdiv : n / 2 ^ (2 ^ k) < 2 ^ (L - 2 ^ k) := by
        apply Nat.div_lt_of_lt_mul
        rw [← Nat.pow_add]
        have : 2 ^ k + (L - 2 ^ k) = L := by omega
        rw [this]
        exact h
      have := ih _ _ hdiv
      omega
    · exact ih n L h

/-- A magnitude with at most 53 significant bits is its own rounding. -/
theorem roundRatio_exact (n s : Nat) (hlt : n < 2 ^ (s + 53)) (hdvd : 2 ^ s ∣ n) :
    roundRatio n 1 = n := by
  have hb : bitLength n ≤ s + 53 := bitLengthAux_le 12 n _ hlt
  have hs : bitLength n - 53 ≤ s := by omega
  have hd : 2 ^ (bitLength n - 53) ∣ n := (Nat.pow_dvd_pow 2 hs).trans hdvd
  have hr : n % 2 ^ (bitLength n - 53) = 0 := Nat.mod_eq_zero_of_dvd hd
  have hpos : 0 < 2 ^ (bitLength n - 53) := Nat.two_pow_pos _
  unfold roundRatio
  simp only [Nat.div_one, Nat.one_mul, hr, Nat.mul_zero]
  have hc : ¬ (2 ^ (bitLength n - 53) < 0 ∨
      (0 = 2 ^ (bitLength n - 53) ∧ n / 2 ^ (bitLength n - 53) % 2 = 1)) := by
    rintro (h | ⟨h, _⟩) <;> omega
  rw [if_neg hc]
  exact Nat.div_mul_cancel hd

theorem Dbl.one_eq_two_mul_half : Dbl.one = 2 * (Dbl.one / 2) := by
  have h : Dbl.one = 2 * 2 ^ 1073 := by
    unfold Dbl.one
    rw [show 1074 = 1073 + 1 from rfl, Nat.pow_succ, Nat.mul_comm]
  rw [h, Nat.mul_div_cancel_left _ (by norm_num : 0 < 2)]

theorem Dbl.half_eq : Dbl.one / 2 = 2 ^ 1073 := by
  unfold Dbl.one
  rw [show 1074 = 1073 + 1 from rfl, Nat.pow_succ, Nat.mul_div_cancel _ (by norm_num : 0 < 2)]

/-- A multiple of one half below `2^32` is a double: it is its own rounding. -/
theorem Dbl.ofRatio_half_integer (neg : Bool) (j : Nat) (hj : j < 2 ^ 33) :
    Dbl.ofRatio neg (j * (Dbl.one / 2)) 1 = Dbl.finite neg (j * (Dbl.one / 2)) := by
  have hV : j * (Dbl.one / 2) < 2 ^ (1073 + 53) := by
    rw [Dbl.half_eq]
    calc j * 2 ^ 1073 < 2 ^ 33 * 2 ^ 1073 := Nat.mul_lt_mul_of_pos_right hj (Nat.two_pow_pos _)
      _ = 2 ^ (33 + 1073) := (Nat.pow_add 2 33 1073).symm
      _ ≤ 2 ^ (1073 + 53) := Nat.pow_le_pow_right (by norm_num) (by norm_num)
  have hhuge : 2 ^ (1073 + 53) ≤ Dbl.huge := Nat.pow_le_pow_right (by norm_num) (by norm_num)
  have hexact : roundRatio (j * (Dbl.one / 2)) 1 = j * (Dbl.one / 2) :=
    roundRatio_exact _ 1073 hV (by rw [Dbl.half_eq]; exact Nat.dvd_mul_left _ _)
  unfold Dbl.ofRatio
  rw [hexact, Nat.div_one, if_neg (by omega), if_neg (by omega)]

theorem Dbl.toInt_half_integer (neg : Bool) (j : Nat) :
    Dbl.toInt (Dbl.finite neg (j * (Dbl.one / 2)))
      = if INT_MIN ≤ (if neg then -((j / 2 : Nat) : Int) else ((j / 2 : Nat) : Int)) ∧
          (if neg then -((j / 2 : Nat) : Int) else ((j / 2 : Nat) : Int)) ≤ INT_MAX
        then some (if neg then -((j / 2 : Nat) : Int) else ((j / 2 : Nat) : Int)) else none := by
  have hpos : 0 < Dbl.one / 2 := by
    rw [Dbl.half_eq]
    exact Nat.two_pow_pos _
  have hdiv : j * (Dbl.one / 2) / Dbl.one = j / 2 := by
    conv_lhs => rw [Dbl.one_eq_two_mul_half]
    exact Nat.mul_div_mul_right j 2 hpos
  simp only [Dbl.toInt, hdiv]

theorem half_integer_add (one U K : Nat) (h1 : one = 2 * U) (h2 : one / 2 = U) :
    K * one + one / 2 = (2 * K + 1) * U := by
  rw [h2, h1]
  ring

theorem half_integer_sub (one U C : Nat) (h1 : one = 2 * U) (h2 : one / 2 = U) (hC : 1 ≤ C) :
    C * one - one / 2 = (2 * C - 1) * U := by
  obtain ⟨c, rfl⟩ : ∃ c, C = c + 1 := ⟨C - 1, by omega⟩
  rw [h2, h1]
  have e1 : (c + 1) * (2 * U) = (2 * c + 1) * U + U := by ring
  have e2 : 2 * (c + 1) - 1 = 2 * c + 1 := by omega
  rw [e1, e2, Nat.add_sub_cancel]

theorem not_mul_le_half (one C : Nat) (hC : 1 ≤ C) (h : 0 < one / 2) :
    ¬ (C * one ≤ one / 2) := by
  have h3 : one ≤ C * one := Nat.le_mul_of_pos_left _ hC
  omega

/-- The computed coordinate of `App::BuildRAW` in terms of `n = floor(v * 10.0)`: when
`n` is an `int`, the bias is added exactly and the truncation gives `n` for `n ≥ 0` and
`n + 1` for `n < 0`. -/
theorem rawCoord_of_floorInt (v : Dbl) (n : Int) (hn : v.mulTen.floorInt = some n)
    (hmin : INT_MIN ≤ n) (hmax : n ≤ INT_MAX) :
    rawCoord v = some (if 0 ≤ n then n else n + 1) := by
  unfold rawCoord
  generalize v.mulTen = w at hn
  have hone := Dbl.one_eq_two_mul_half
  unfold INT_MIN at hmin
  unfold INT_MAX at hmax
  cases w with
  | inf neg => simp [Dbl.floorInt] at hn
  | nan neg => simp [Dbl.floorInt] at hn
  | finite neg m =>
    cases neg with
    | false =>
      simp only [Dbl.floorInt, Option.some.injEq] at hn
      subst hn
      generalize hK : m / Dbl.one = K at hmin hmax ⊢
      have hV : K * Dbl.one + Dbl.one / 2 = (2 * K + 1) * (Dbl.one / 2) :=
        half_integer_add Dbl.one (Dbl.one / 2) K hone rfl
      have hj : 2 * K + 1 < 2 ^ 33 := by
        norm_num
        omega
      have h2 : (2 * K + 1) / 2 = K := by omega
      have hge : (0 : Int) ≤ (K : Int) := Int.ofNat_nonneg K
      simp only [Dbl.floor, hK, Dbl.addHalf, hV, Dbl.ofRatio_half_integer false _ hj,
        Dbl.toInt_half_integer, h2, INT_MIN, INT_MAX, hge, if_true, Bool.false_eq_true, if_false]
      rw [if_pos ⟨by omega, hmax⟩]
    | true =>
      simp only [Dbl.floorInt, Option.some.injEq] at hn
      subst hn
      generalize hC : (m + (Dbl.one - 1)) / Dbl.one = C at hmin hmax ⊢
      by_cases hc : C = 0
      · subst hc
        have h1 : Dbl.one / 2 - 0 = 1 * (Dbl.one / 2) := by omega
        simp only [Dbl.floor, hC, Dbl.addHalf, Nat.zero_mul, Nat.zero_le, if_true, h1,
          Dbl.ofRatio_half_integer false 1 (by norm_num), Dbl.toInt_half_integer]
        simp [INT_MIN, INT_MAX]
      · have hc1 : 1 ≤ C := Nat.one_le_iff_ne_zero.mpr hc
        have h4 : 0 < Dbl.one / 2 := by
          rw [Dbl.half_eq]
          exact Nat.two_pow_pos _
        have hgt : ¬ (C * Dbl.one ≤ Dbl.one / 2) := not_mul_le_half Dbl.one C hc1 h4
        have hV : C * Dbl.one - Dbl.one / 2 = (2 * C - 1) * (Dbl.one / 2) :=
          half_integer_sub Dbl.one (Dbl.one / 2) C hone rfl hc1
        have hj : 2 * C - 1 < 2 ^ 33 := by
          norm_num
          omega
        have h2 : (2 * C - 1) / 2 = C - 1 := by omega
        have hneg : ¬ ((0 : Int) ≤ -(C : Int)) := by omega
        simp only [Dbl.floor, hC, Dbl.addHalf, hgt, if_false, hV,
          Dbl.ofRatio_half_integer true _ hj, Dbl.toInt_half_integer, h2, INT_MIN, INT_MAX,
          hneg, if_true]
        rw [if_pos ⟨by omega, by omega⟩]
        have h5 : -((C - 1 : Nat) : Int) = -(C : Int) + 1 := by omega
        rw [h5]

/-! ## More lemmas on the extraction loop -/

/-- An iteration leaves the loop only at the closing `end` of an open section. -/
theorem extractLine_break (st : ExtractState) (line : Str)
    (h : (extractLine st line).2 = true) :
    st.in_inst = true ∧ stripLine line = some ['e', 'n', 'd'] := by
  cases hs : stripLine line with
  | none => simp [extractLine_blank st line hs] at h
  | some l =>
    by_cases hc : front l = '#'
    · simp [extractLine_comment st line l hs hc] at h
    · cases hin : st.in_inst with
      | false => simp [extractLine_outside st line hin] at h
      | true =>
        by_cases he : l = ['e', 'n', 'd']
        · exact ⟨rfl, by rw [he]⟩
        · rw [extractLine_data st line l hin hs hc he] at h
          split at h
          · simp at h
          · split at h <;> simp at h

/-- Lines that do not trim to `end` are all read: the loop over them and then over
the rest is the loop over the rest from the state they leave. -/
theorem extractLoop_append (st : ExtractState) (body rest : List Str)
    (hbody : ∀ l ∈ body, stripLine l ≠ some ['e', 'n', 'd']) :
    extractLoop st (body ++ rest) = extractLoop (extractLoop st body) rest := by
  induction body generalizing st with
  | nil => rfl
  | cons l ls ih =>
    have hflag : (extractLine st l).2 = false := by
      cases hf : (extractLine st l).2 with
      | false => rfl
      | true => exact absurd (extractLine_break st l hf).2 (hbody l (List.mem_cons_self _ _))
    have hstep : extractLine st l = ((extractLine st l).1, false) := by
      rw [← hflag]
    rw [List.cons_append, extractLoop_cons_continue _ _ _ _ hstep,
      extractLoop_cons_continue _ _ _ _ hstep]
    exact ih _ (fun m hm => hbody m (List.mem_cons_of_mem _ hm))

/-- The records of an iteration are appended to the list: a longer list at the start
gives the same records after it. -/
theorem extractLine_inst_list_append (st st' : ExtractState) (line : Str)
    (L : List Instance) (hin : st.in_inst = st'.in_inst)
    (hlist : st.inst_list = L ++ st'.inst_list) :
    (extractLine st line).1.inst_list = L ++ (extractLine st' line).1.inst_list := by
  unfold extractLine
  simp only [hin, hlist]
  repeat' split
  all_goals simp_all

/-- Whether an iteration leaves the loop, and whether the section is open after it,
depend only on whether the section was open before. -/
theorem extractLine_flag_congr (st st' : ExtractState) (line : Str)
    (hin : st.in_inst = st'.in_inst) :
    (extractLine st line).2 = (extractLine st' line).2 ∧
    (extractLine st line).1.in_inst = (extractLine st' line).1.in_inst := by
  unfold extractLine
  simp only [hin]
  repeat' split
  all_goals simp_all

theorem extractLoop_inst_list_append (st st' : ExtractState) (lines : List Str)
    (L : List Instance) (hin : st.in_inst = st'.in_inst)
    (hlist : st.inst_list = L ++ st'.inst_list) :
    (extractLoop st lines).inst_list = L ++ (extractLoop st' lines).inst_list := by
  induction lines generalizing st st' with
  | nil => exact hlist
  | cons l ls ih =>
    obtain ⟨h1, h2⟩ := extractLine_flag_congr st st' l hin
    have h3 := extractLine_inst_list_append st st' l L hin hlist
    unfold extractLoop
    rw [h1]
    split
    · exact h3
    · exact ih _ _ h2 h3

/-- Every iteration counts its line, and shows at most one alert: the warning of its
line, with the line's number. -/
theorem extractLine_alerts (st : ExtractState) (line : Str) :
    (extractLine st line).1.lnum = st.lnum + 1 ∧
    ((extractLine st line).1.alerts = st.alerts ∨
      ∃ a, (extractLine st line).1.alerts = st.alerts ++ [a] ∧
        lineWarning a (st.lnum + 1) line) := by
  cases hs : stripLine line with
  | none => simp [extractLine_blank st line hs]
  | some l =>
    by_cases hc : front l = '#'
    · simp [extractLine_comment st line l hs hc]
    · cases hin : st.in_inst with
      | false => simp [extractLine_outside st line hin]
      | true =>
        by_cases he : l = ['e', 'n', 'd']
        · rw [he] at hs
          simp [extractLine_end st line hin hs]
        · rw [extractLine_data st line l hin hs hc he]
          by_cases hlen : (Explode line).length < 6
          · rw [if_pos hlen]
            exact ⟨rfl, Or.inr ⟨_, rfl, Or.inl ⟨rfl, hlen⟩⟩⟩
          · rw [if_neg hlen]
            unfold lineWarning
            generalize stoi ((Explode line).getD 0 []) = o0
            generalize stod ((Explode line).getD 3 []) = o3
            generalize stod ((Explode line).getD 4 []) = o4
            generalize stod ((Explode line).getD 5 []) = o5
            have h6 : 6 ≤ (Explode line).length := by omega
            cases o0 <;> cases o3 <;> cases o4 <;> cases o5 <;> simp [h6]

/-- The alerts of the loop are the alerts shown before followed by warnings, each
the warning of one of the lines, with that line's number. -/
theorem extractLoop_alerts (st : ExtractState) (lines : List Str) :
    ∃ warnings, (extractLoop st lines).alerts = st.alerts ++ warnings ∧
      ∀ a ∈ warnings, ∃ k line, lines[k]? = some line ∧ lineWarning a (st.lnum + k + 1) line := by
  induction lines generalizing st with
  | nil => exact ⟨[], by simp [extractLoop], by simp⟩
  | cons l ls ih =>
    obtain ⟨hnum, halert⟩ := extractLine_alerts st l
    have hfirst : ∃ w1, (extractLine st l).1.alerts = st.alerts ++ w1 ∧
        ∀ a ∈ w1, lineWarning a (st.lnum + 1) l := by
      rcases halert with h | ⟨a, h, hw⟩
      · exact ⟨[], by simp [h], by simp⟩
      · exact ⟨[a], h, by simpa using hw⟩
    obtain ⟨w1, hw1, hall1⟩ := hfirst
    unfold extractLoop
    split
    · exact ⟨w1, hw1, fun a ha => ⟨0, l, by simp, hall1 a ha⟩⟩
    · obtain ⟨w2, hw2, hall2⟩ := ih (extractLine st l).1
      refine ⟨w1 ++ w2, by rw [hw2, hw1, List.append_assoc], fun a ha => ?_⟩
      rcases List.mem_append.mp ha with h | h
      · exact ⟨0, l, by simp, hall1 a h⟩
      · obtain ⟨k, line, hk, hw⟩ := hall2 a h
        refine ⟨k + 1, line, by simpa using hk, ?_⟩
        rw [hnum] at hw
        have e : st.lnum + 1 + k + 1 = st.lnum + (k + 1) + 1 := by omega
        rw [← e]
        exact hw

theorem find_first_not_of_all (l : Str) (h : ∀ c ∈ l, isspace c = true) :
    find_first_not_of l schars = none := by
  induction l with
  | nil => rfl
  | cons c cs ih =>
    have hc : c ∈ schars := (mem_schars_iff c).mpr (h c (List.mem_cons_self _ _))
    simp [find_first_not_of, hc, ih (fun d hd => h d (List.mem_cons_of_mem _ hd))]

/-- A non-empty line of space characters is skipped by the first statement of the
loop body. -/
theorem stripLine_blank (line : Str) (hne : line ≠ []) (h : ∀ c ∈ line, isspace c = true) :
    stripLine line = none := by
  cases line with
  | nil => exact absurd rfl hne
  | cons c cs =>
    have hc : isspace (front (c :: cs)) = true := h c (List.mem_cons_self _ _)
    simp [stripLine, hc, find_first_not_of_all (c :: cs) h]

/-! ## Lemmas on what a conversion reads and writes -/

/-- The extraction leaves the widgets as they are. -/
theorem Extract_widgets (files : Str → Option (List Str)) (app : App)
    (inst_list : List Instance) :
    (Extract files app inst_list).2.2.m_InputPath = app.m_InputPath ∧
    (Extract files app inst_list).2.2.m_FuncName = app.m_FuncName ∧
    (Extract files app inst_list).2.2.m_OutputBuffer = app.m_OutputBuffer := by
  unfold Extract
  cases hp : app.m_InputPath with
  | none => simp [App.alert, hp]
  | some p =>
    cases p with
    | nil => simp [App.alert, hp]
    | cons c cs =>
      cases hf : files (c :: cs) with
      | none => simp [App.alert, hp, hf]
      | some lines => simp [hp, hf]

/-- The flag and the list of the extraction depend on the window only through the
input path. -/
theorem Extract_frame (files : Str → Option (List Str)) (app app' : App)
    (inst_list : List Instance) (hpath : app.m_InputPath = app'.m_InputPath) :
    (Extract files app inst_list).1 = (Extract files app' inst_list).1 ∧
    (Extract files app inst_list).2.1 = (Extract files app' inst_list).2.1 := by
  unfold Extract
  rw [hpath]
  cases hp : app'.m_InputPath with
  | none => simp
  | some p =>
    cases p with
    | nil => simp
    | cons c cs =>
      cases hf : files (c :: cs) with
      | none => simp [hf]
      | some lines =>
        obtain ⟨h1, h2⟩ := extractLoop_congr ⟨false, 0, inst_list, app.alerts⟩
          ⟨false, 0, inst_list, app'.alerts⟩ lines rfl rfl
        simp [hf, h1, h2]

/-- The text the render loop leaves in the output buffer depends only on the text
the buffer held before, the format and the records. -/
theorem buildLoop_output_congr (format : Instance → Option Str) (n n' : Nat)
    (app app' : App) (l : List Instance) (hout : app.m_OutputBuffer = app'.m_OutputBuffer) :
    (buildLoop format n app l).map (fun a => a.m_OutputBuffer)
      = (buildLoop format n' app' l).map (fun a => a.m_OutputBuffer) := by
  induction l generalizing n n' app app' with
  | nil => simp [buildLoop, hout]
  | cons r rs ih =>
    unfold buildLoop
    cases format r with
    | none => rfl
    | some text =>
      simp only []
      split_ifs
      · simp [App.alert, hout]
      · simp [App.alert, hout]
      · exact ih _ _ _ _ (by simp [hout])

/-- The render loop leaves the path and the function name as they are. -/
theorem buildLoop_widgets (format : Instance → Option Str) (n : Nat) (app a : App)
    (l : List Instance) (h : buildLoop format n app l = some a) :
    a.m_InputPath = app.m_InputPath ∧ a.m_FuncName = app.m_FuncName := by
  induction l generalizing n app with
  | nil =>
    simp only [buildLoop, Option.some.injEq] at h
    subst h
    exact ⟨rfl, rfl⟩
  | cons r rs ih =>
    unfold buildLoop at h
    cases hf : format r with
    | none => simp [hf] at h
    | some text =>
      simp only [hf] at h
      split_ifs at h
      · simp only [Option.some.injEq] at h
        subst h
        exact ⟨rfl, rfl⟩
      · simp only [Option.some.injEq] at h
        subst h
        exact ⟨rfl, rfl⟩
      · have h' := ih _ _ h
        exact h'

/-- The extraction of an opened file is not usable when no line trims to `inst` or
when no record is parsed. -/
theorem Extract_unusable (files : Str → Option (List Str)) (app : App) (path : Str)
    (lines : List Str) (hpath : app.m_InputPath = some path) (hne : path ≠ [])
    (hfile : files path = some lines)
    (hcase : (∀ l ∈ lines, stripLine l ≠ some ['i', 'n', 's', 't']) ∨
      (Extract files app []).2.1 = []) :
    (Extract files app []).1 = false := by
  rw [Extract_opened files app path lines [] hpath hne hfile] at hcase ⊢
  rcases hcase with hno | hempty
  · have h := extractLoop_outside_skip ⟨false, 0, [], app.alerts⟩ lines [] rfl hno
    rw [List.append_nil] at h
    rw [h]
    simp [extractLoop]
  · simp only at hempty
    simp [hempty]

/-- A conversion whose extraction is not usable returns the window that the
extraction left. -/
theorem Build_of_unusable (mode : Mode) (files : Str → Option (List Str)) (app : App)
    (h : (Extract files app []).1 = false) :
    Build mode files app = some (Extract files app []).2.2 := by
  simp [Build, h]

/-- In the two call modes the formatted text is the function name followed by a text
that does not depend on the name. -/
theorem format_funcName (mode : Mode) (hmode : mode ≠ Mode.xml) (f : Str) (r : Instance) :
    mode.format f r = (mode.format [] r).map (fun s => f ++ s) := by
  cases mode with
  | xml => exact absurd rfl hmode
  | nut => simp [Mode.format, nutText]
  | raw =>
    simp only [Mode.format, rawText]
    split <;> simp

/-- In the two call modes, when every line is shorter than 512, the render shows no
alert and its output is the lines in order, each the function name followed by the
text of the record. -/
theorem buildLoop_call_lines (mode : Mode) (hmode : mode ≠ Mode.xml) (f : Str) (n : Nat)
    (app : App) (recs : List Instance) (sfx : List Str)
    (hs : recs.map (mode.format []) = sfx.map some)
    (hfit : ∀ s ∈ sfx, (f ++ s).length < 512) :
    buildLoop (mode.format f) n app recs
      = some { app with m_OutputBuffer :=
          app.m_OutputBuffer ++ concatTexts (sfx.map (fun s => f ++ s)) } := by
  induction recs generalizing n app sfx with
  | nil =>
    cases sfx with
    | nil => simp [buildLoop, concatTexts]
    | cons s ss => simp at hs
  | cons r rs ih =>
    cases sfx with
    | nil => simp at hs
    | cons s ss =>
      simp only [List.map_cons, List.cons.injEq] at hs
      have hr : mode.format f r = some (f ++ s) := by
        rw [format_funcName mode hmode f r, hs.1]
        rfl
      have hlen : (f ++ s).length < 512 := hfit s (List.mem_cons_self _ _)
      rw [buildLoop_cons_fits _ n app r rs (f ++ s) hr (by omega),
        ih (n + 1) _ ss hs.2 (fun t ht => hfit t (List.mem_cons_of_mem _ ht)),
        List.take_of_length_le (by omega)]
      simp [concatTexts]

/-- The output of a conversion whose extraction is usable depends on the window only
through the input path and the function name. -/
theorem Build_output_congr (mode : Mode) (files : Str → Option (List Str)) (app app' : App)
    (hpath : app'.m_InputPath = app.m_InputPath) (hname : app'.m_FuncName = app.m_FuncName)
    (hflag : (Extract files app []).1 = true) :
    (Build mode files app').map (fun a => a.m_OutputBuffer)
      = (Build mode files app).map (fun a => a.m_OutputBuffer) := by
  obtain ⟨hf, hl⟩ := Extract_frame files app' app [] hpath
  have hflag' : (Extract files app' []).1 = true := by rw [hf, hflag]
  simp only [Build, hflag, hflag', if_true, render, hl, hname]
  exact buildLoop_output_congr _ 0 0 _ _ _ rfl

theorem ceil_div_mul (one c : Nat) (hone : 0 < one) : (c * one + (one - 1)) / one = c := by
  apply Nat.div_eq_of_lt_le
  · exact Nat.le_add_right _ _
  · have h : (c + 1) * one = c * one + one := by ring
    rw [h]
    omega

/-! ## Lemmas on the lines of the instance section -/

/-- A tokenized line of the open section appends one record, or shows one warning
that carries its number. -/
theorem extractLine_data_cases (st : ExtractState) (line l : Str) (hin : st.in_inst = true)
    (h : stripLine line = some l) (hc : front l ≠ '#') (he : l ≠ ['e', 'n', 'd']) :
    (∃ r, extractLine st line
        = (⟨true, st.lnum + 1, st.inst_list ++ [r], st.alerts⟩, false)) ∨
    (∃ a, lineWarning a (st.lnum + 1) line ∧
      extractLine st line
        = (⟨true, st.lnum + 1, st.inst_list, st.alerts ++ [a]⟩, false)) := by
  rw [extractLine_data st line l hin h hc he]
  by_cases hlen : (Explode line).length < 6
  · rw [if_pos hlen]
    exact Or.inr ⟨_, Or.inl ⟨rfl, hlen⟩, rfl⟩
  · rw [if_neg hlen]
    unfold lineWarning
    generalize stoi ((Explode line).getD 0 []) = o0
    generalize stod ((Explode line).getD 3 []) = o3
    generalize stod ((Explode line).getD 4 []) = o4
    generalize stod ((Explode line).getD 5 []) = o5
    have h6 : 6 ≤ (Explode line).length := by omega
    cases o0 <;> cases o3 <;> cases o4 <;> cases o5 <;> simp [h6]

/-- From an open section, the records and the alerts grow together by the number of
lines before the closing `end` that are not skipped. -/
theorem extractLoop_count_inside (st : ExtractState) (lines : List Str)
    (hin : st.in_inst = true) :
    (extractLoop st lines).inst_list.length + (extractLoop st lines).alerts.length
      = st.inst_list.length + st.alerts.length +
        ((lines.takeWhile (fun l => !decide (stripLine l = some ['e', 'n', 'd']))).filter
          notSkipped).length := by
  induction lines generalizing st with
  | nil => simp [extractLoop]
  | cons l ls ih =>
    cases hs : stripLine l with
    | none =>
      rw [extractLoop_cons_continue _ _ _ _ (extractLine_blank st l hs),
        ih ⟨st.in_inst, st.lnum + 1, st.inst_list, st.alerts⟩ hin]
      simp [List.takeWhile, hs, notSkipped, List.filter]
    | some l' =>
      by_cases he : l' = ['e', 'n', 'd']
      · subst he
        rw [extractLoop_cons_break _ _ _ _ (extractLine_end st l hin hs)]
        simp [List.takeWhile, hs]
      · by_cases hc : front l' = '#'
        · rw [extractLoop_cons_continue _ _ _ _ (extractLine_comment st l l' hs hc),
            ih ⟨st.in_inst, st.lnum + 1, st.inst_list, st.alerts⟩ hin]
          simp [List.takeWhile, hs, he, notSkipped, hc, List.filter]
        · rcases extractLine_data_cases st l l' hin hs hc he with ⟨r, h⟩ | ⟨a, _, h⟩
          · rw [extractLoop_cons_continue _ _ _ _ h, ih _ rfl]
            simp [List.takeWhile, hs, he, notSkipped, hc, List.filter]
            omega
          · rw [extractLoop_cons_continue _ _ _ _ h, ih _ rfl]
            simp [List.takeWhile, hs, he, notSkipped, hc, List.filter]
            omega

/-- From a closed section, the records and the alerts grow together by the number of
lines of the instance section that are not skipped. -/
theorem extractLoop_count (st : ExtractState) (lines : List Str) (hin : st.in_inst = false) :
    (extractLoop st lines).inst_list.length + (extractLoop st lines).alerts.length
      = st.inst_list.length + st.alerts.length +
        ((sectionBody lines).filter notSkipped).length := by
  induction lines generalizing st with
  | nil => simp [extractLoop, sectionBody]
  | cons l ls ih =>
    by_cases hl : stripLine l = some ['i', 'n', 's', 't']
    · rw [extractLoop_cons_continue _ _ _ _ (extractLine_inst st l hin hl),
        extractLoop_count_inside _ _ rfl]
      simp [sectionBody, List.dropWhile, hl]
    · have hstep : extractLine st l = (⟨false, st.lnum + 1, st.inst_list, st.alerts⟩, false) := by
        rw [extractLine_outside st l hin]
        simp [hl]
      rw [extractLoop_cons_continue _ _ _ _ hstep, ih _ rfl]
      simp [sectionBody, List.dropWhile, hl]

theorem find_first_not_of_lead (lead l : Str) (hlead : ∀ c ∈ lead, isspace c = true)
    (hne : l ≠ []) (hl : isspace (front l) = false) :
    find_first_not_of (lead ++ l) schars = some lead.length := by
  induction lead with
  | nil =>
    cases l with
    | nil => exact absurd rfl hne
    | cons c cs =>
      have hc : c ∉ schars := fun h => by
        have := (mem_schars_iff c).mp h
        simp [front, this] at hl
      simp [find_first_not_of, hc]
  | cons c cs ih =>
    have hc : c ∈ schars := (mem_schars_iff c).mpr (hlead c (List.mem_cons_self _ _))
    simp [find_first_not_of, hc, ih (fun d hd => hlead d (List.mem_cons_of_mem _ hd))]

/-- Leading space is stripped, and only leading space: what follows the first
character that is not a space is kept as it is. -/
theorem stripLine_lead (lead l : Str) (hlead : ∀ c ∈ lead, isspace c = true)
    (hne : l ≠ []) (hl : isspace (front l) = false) :
    stripLine (lead ++ l) = some l := by
  cases lead with
  | nil => simp [stripLine, hl]
  | cons c cs =>
    have hc : isspace (front (c :: (cs ++ l))) = true := hlead c (List.mem_cons_self _ _)
    have hf := find_first_not_of_lead (c :: cs) l hlead hne hl
    simp only [List.cons_append] at hf
    simp [stripLine, hc, hf]

/-- The conversion of a token that starts with the letter `e` throws. -/
theorem stoi_e (r : Str) : stoi ('e' :: r) = none := rfl

/-- A line that starts with `end` and goes on with separators holds one token. -/
theorem Explode_end_seps (s : Str) (hs : ∀ c ∈ s, Tokens.get_table c = true) :
    Explode (['e', 'n', 'd'] ++ s) = [['e', 'n', 'd']] := by
  have h := readTokens_field_sep ['e', 'n', 'd'] s [] (by simp) (by decide) hs (Or.inr rfl)
  simpa [Explode, readTokens] using h

/-- A tokenized line of the open section whose first token does not convert shows a
warning and appends nothing. -/
theorem extractLine_data_warns (st : ExtractState) (line l : Str) (hin : st.in_inst = true)
    (h : stripLine line = some l) (hc : front l ≠ '#') (he : l ≠ ['e', 'n', 'd'])
    (h0 : stoi ((Explode line).getD 0 []) = none) :
    ∃ a, lineWarning a (st.lnum + 1) line ∧
      extractLine st line
        = (⟨true, st.lnum + 1, st.inst_list, st.alerts ++ [a]⟩, false) := by
  rw [extractLine_data st line l hin h hc he]
  by_cases hlen : (Explode line).length < 6
  · rw [if_pos hlen]
    exact ⟨_, Or.inl ⟨rfl, hlen⟩, rfl⟩
  · rw [if_neg hlen, h0]
    exact ⟨_, Or.inr ⟨rfl, by omega, Or.inl h0⟩, rfl⟩

/-! ## Scaled coordinates -/

/-- C1: the scaled-integer renderer does not emit `floor(v*10 + 0.5)`: the code floors
first and adds the bias afterwards. For the coordinates 1.25 and -1.0 the formula of
the specification gives 13 and -10, the code gives 12 and -9, and the RAW conversion
of the line `1, 0, 0, 1.25, -1.0, 0` prints `HideMapObject(1, 12, -9, 0);`. -/
theorem rawCoord_bias_after_floor :
    (stod "1.25".toList).bind specCoord = some 13 ∧
    (stod "1.25".toList).bind rawCoord = some 12 ∧
    (stod "-1.0".toList).bind specCoord = some (-10) ∧
    (stod "-1.0".toList).bind rawCoord = some (-9) ∧
    BuildRAW (oneFile "a.ipl".toList ["inst".toList, "1, 0, 0, 1.25, -1.0, 0".toList, "end".toList])
        ⟨some "a.ipl".toList, "HideMapObject".toList, [], []⟩
      = some ⟨some "a.ipl".toList, "HideMapObject".toList,
          "HideMapObject(1, 12, -9, 0);\n".toList, []⟩ := by
  refine ⟨?_, ?_, ?_, ?_, ?_⟩ <;> decide

/-- C2: the scaled-integer renderer maps the coordinate 1.23 to 12 and the coordinate
-1.23 to -12, and the RAW conversion of the line `7, a, b, 1.23, -1.23, 1.23` prints
`HideMapObject(7, 12, -12, 12);`. -/
theorem rawCoord_one_point_two_three :
    (stod "1.23".toList).bind rawCoord = some 12 ∧
    (stod "-1.23".toList).bind rawCoord = some (-12) ∧
    BuildRAW
        (oneFile "a.ipl".toList ["inst".toList, "7, a, b, 1.23, -1.23, 1.23".toList, "end".toList])
        ⟨some "a.ipl".toList, "HideMapObject".toList, [], []⟩
      = some ⟨some "a.ipl".toList, "HideMapObject".toList,
          "HideMapObject(7, 12, -12, 12);\n".toList, []⟩ := by
  refine ⟨?_, ?_, ?_⟩ <;> decide

/-! ## The tokenizer -/

/-- C3, as stated, fails: a tab separates fields too. The line `a<TAB>b` explodes into
the two tokens `a` and `b`, while the split on commas and spaces alone keeps it as
one token. -/
theorem Explode_splits_at_tab :
    Explode ['a', '\t', 'b'] = [['a'], ['b']] ∧
    splitRuns isCommaOrSpace ['a', '\t', 'b'] = [['a', '\t', 'b']] ∧
    Explode ['a', '\t', 'b'] ≠ splitRuns isCommaOrSpace ['a', '\t', 'b'] := by
  refine ⟨?_, ?_, ?_⟩ <;> decide

/-- C3, amended: for every line, `Explode` returns, in order, exactly the maximal runs
of characters that are none of comma, space, tab, line feed, vertical tab, form feed
and carriage return; consecutive separators collapse, no returned token is empty,
and no token holds a separator. -/
theorem Explode_eq_splitRuns (line : Str) :
    Explode line = splitRuns Tokens.get_table line ∧
    (∀ t ∈ Explode line, t ≠ [] ∧ ∀ c ∈ t, Tokens.get_table c = false) ∧
    (∀ c, Tokens.get_table c = true ↔ c ∈ [',', ' ', '\t', '\n', '\x0b', '\x0c', '\r']) := by
  refine ⟨?_, ?_, get_table_eq_true_iff⟩
  · simp [Explode, splitRuns, List.splitOnP, readTokens_eq_filter_go]
  · intro t ht
    obtain ⟨h1, h2⟩ := readTokens_mem line [] t ht
    exact ⟨h1, fun c hc => by simpa using h2 c hc⟩

/-! ## Instance lines -/

/-- C4, as stated, fails: a field free of commas and spaces may hold a tab, which
splits it. The fields `1`, `a<TAB>b`, `0`, `3.0`, `4.0`, `5.0`, joined with `, `, give
inside the instance section the record (1, 0.0, 3.0, 4.0) and not the record
(1, 3.0, 4.0, 5.0) made of fields 0, 3, 4 and 5. -/
theorem extract_field_with_tab :
    (∀ f ∈ ["1".toList, "a\tb".toList, "0".toList, "3.0".toList, "4.0".toList, "5.0".toList],
      f ≠ [] ∧ ∀ c ∈ f, isCommaOrSpace c = false) ∧
    stoi "1".toList = some 1 ∧
    stod "3.0".toList = some (Dbl.finite false (3 * Dbl.one)) ∧
    stod "4.0".toList = some (Dbl.finite false (4 * Dbl.one)) ∧
    stod "5.0".toList = some (Dbl.finite false (5 * Dbl.one)) ∧
    joinFields ["1".toList, "a\tb".toList, "0".toList, "3.0".toList, "4.0".toList, "5.0".toList]
        [", ".toList, ", ".toList, ", ".toList, ", ".toList, ", ".toList, []]
      = "1, a\tb, 0, 3.0, 4.0, 5.0".toList ∧
    (extractLoop ⟨false, 0, [], []⟩
        ["inst".toList, "1, a\tb, 0, 3.0, 4.0, 5.0".toList, "end".toList]).inst_list
      = [Instance.mk 1 (Dbl.finite false 0) (Dbl.finite false (3 * Dbl.one))
          (Dbl.finite false (4 * Dbl.one))] ∧
    (extractLoop ⟨false, 0, [], []⟩
        ["inst".toList, "1, a\tb, 0, 3.0, 4.0, 5.0".toList, "end".toList]).inst_list
      ≠ [Instance.mk 1 (Dbl.finite false (3 * Dbl.one)) (Dbl.finite false (4 * Dbl.one))
          (Dbl.finite false (5 * Dbl.one))] := by
  refine ⟨?_, ?_, ?_, ?_, ?_, ?_, ?_, ?_⟩ <;> decide

/-- C4, amended: for every list of at least 6 fields, each non-empty and free of
commas, spaces and the other white-space characters (tab, line feed, vertical tab,
form feed, carriage return), whose fields 0, 3, 4 and 5 convert (`stoi` for field 0,
`stod` for the others), and for every way of joining them with non-empty runs of such
separators (also with leading or trailing separators), the tokens of the joined line
are the fields, and the line inside the instance section yields exactly one record
with id = field 0, x = field 3, y = field 4, z = field 5 and no alert; the record
depends neither on the separators nor on fields 1, 2 and 6 onward. -/
theorem extract_joined_fields (f0 f1 f2 f3 f4 f5 : Str) (more seps : List Str)
    (lead trail : Str) (id : Int) (x y z : Dbl)
    (hf : ∀ f ∈ f0 :: f1 :: f2 :: f3 :: f4 :: f5 :: more,
      f ≠ [] ∧ ∀ c ∈ f, Tokens.get_table c = false)
    (hs : ∀ s ∈ seps, s ≠ [] ∧ ∀ c ∈ s, Tokens.get_table c = true)
    (hlen : seps.length = more.length + 5)
    (hlead : ∀ c ∈ lead, Tokens.get_table c = true)
    (htrail : ∀ c ∈ trail, Tokens.get_table c = true)
    (hid : stoi f0 = some id) (hx : stod f3 = some x) (hy : stod f4 = some y)
    (hz : stod f5 = some z) :
    Explode (lead ++ joinFields (f0 :: f1 :: f2 :: f3 :: f4 :: f5 :: more) (seps ++ [trail]))
      = f0 :: f1 :: f2 :: f3 :: f4 :: f5 :: more ∧
    (∀ st : ExtractState, st.in_inst = true →
      extractLine st
          (lead ++ joinFields (f0 :: f1 :: f2 :: f3 :: f4 :: f5 :: more) (seps ++ [trail]))
        = (⟨true, st.lnum + 1, st.inst_list ++ [Instance.mk id x y z], st.alerts⟩, false)) ∧
    extractLoop ⟨false, 0, [], []⟩
        [['i', 'n', 's', 't'],
          lead ++ joinFields (f0 :: f1 :: f2 :: f3 :: f4 :: f5 :: more) (seps ++ [trail]),
          ['e', 'n', 'd']]
      = ⟨true, 3, [Instance.mk id x y z], []⟩ := by
  have htok : Explode
      (lead ++ joinFields (f0 :: f1 :: f2 :: f3 :: f4 :: f5 :: more) (seps ++ [trail]))
      = f0 :: f1 :: f2 :: f3 :: f4 :: f5 :: more := by
    unfold Explode
    rw [readTokens_sep_run lead _ hlead]
    exact readTokens_joinFields _ seps trail hf hs (by simp [hlen]) htrail
  have hstep : ∀ st : ExtractState, st.in_inst = true →
      extractLine st
          (lead ++ joinFields (f0 :: f1 :: f2 :: f3 :: f4 :: f5 :: more) (seps ++ [trail]))
        = (⟨true, st.lnum + 1, st.inst_list ++ [Instance.mk id x y z], st.alerts⟩, false) :=
    fun st hin => extractLine_record st _ f0 f1 f2 f3 f4 f5 more id x y z hin htok hid hx hy hz
  refine ⟨htok, hstep, ?_⟩
  have h1 : extractLine ⟨false, 0, [], []⟩ ['i', 'n', 's', 't'] = (⟨true, 1, [], []⟩, false) := by
    decide
  have h3 : extractLine ⟨true, 2, [Instance.mk id x y z], []⟩ ['e', 'n', 'd']
      = (⟨true, 3, [Instance.mk id x y z], []⟩, true) :=
    extractLine_end _ _ rfl (by decide)
  rw [extractLoop_cons_continue _ _ _ _ h1,
    extractLoop_cons_continue _ _ _ _ (hstep ⟨true, 1, [], []⟩ rfl)]
  exact extractLoop_cons_break _ _ _ _ h3

/-- The amended C4 at the fields `1`, `a`, `b`, `1.5`, `-2`, `3e0`, `x`, joined with
mixed runs of commas, spaces and a tab, after a leading run and before a trailing
carriage return. -/
theorem extract_joined_fields_witness :
    extractLine ⟨true, 1, [], []⟩ " ,1, a b,,1.5\t-2 , 3e0,x \r".toList
      = (⟨true, 2, [Instance.mk 1 (Dbl.finite false (3 * (Dbl.one / 2)))
          (Dbl.finite true (2 * Dbl.one)) (Dbl.finite false (3 * Dbl.one))], []⟩, false) :=
  (extract_joined_fields "1".toList "a".toList "b".toList "1.5".toList "-2".toList
    "3e0".toList ["x".toList]
    [", ".toList, " ".toList, ",,".toList, "\t".toList, " , ".toList, ",".toList]
    " ,".toList " \r".toList 1 (Dbl.finite false (3 * (Dbl.one / 2)))
    (Dbl.finite true (2 * Dbl.one)) (Dbl.finite false (3 * Dbl.one))
    (by decide) (by decide) (by decide) (by decide) (by decide) (by decide) (by decide)
    (by decide) (by decide)).2.1 ⟨true, 1, [], []⟩ rfl

/-! ## The outcome of the extraction -/

/-- C5: for every file that can be opened, `Extract` returns true if and only if some
line, after its leading white space is stripped, is exactly `inst` and the instance
list is not empty; a true result never comes with an empty list; a file with no
`inst` line gives false and no record whatever its lines hold; and the records are
those parsed from the lines after the first `inst` line. -/
theorem Extract_usable_iff (files : Str → Option (List Str)) (app : App) (path : Str)
    (lines : List Str) (hpath : app.m_InputPath = some path) (hne : path ≠ [])
    (hfile : files path = some lines) :
    ((Extract files app []).1 = true ↔
      (∃ l ∈ lines, stripLine l = some ['i', 'n', 's', 't']) ∧ (Extract files app []).2.1 ≠ []) ∧
    ((Extract files app []).1 = true → (Extract files app []).2.1 ≠ []) ∧
    ((∀ l ∈ lines, stripLine l ≠ some ['i', 'n', 's', 't']) →
      (Extract files app []).1 = false ∧ (Extract files app []).2.1 = []) ∧
    (∀ (before_inst : List Str) (l : Str) (after_inst : List Str),
      lines = before_inst ++ l :: after_inst →
      (∀ m ∈ before_inst, stripLine m ≠ some ['i', 'n', 's', 't']) →
      stripLine l = some ['i', 'n', 's', 't'] →
      (Extract files app []).2.1
        = (extractLoop ⟨true, before_inst.length + 1, [], app.alerts⟩ after_inst).inst_list) := by
  rw [Extract_opened files app path lines [] hpath hne hfile]
  have hiff := extractLoop_in_inst_iff ⟨false, 0, [], app.alerts⟩ lines rfl
  refine ⟨?_, ?_, fun hno => ?_, ?_⟩
  · rw [← hiff]
    cases hl : (extractLoop ⟨false, 0, [], app.alerts⟩ lines).inst_list <;> simp [hl]
  · cases hl : (extractLoop ⟨false, 0, [], app.alerts⟩ lines).inst_list <;> simp [hl]
  · have h := extractLoop_outside_skip ⟨false, 0, [], app.alerts⟩ lines [] rfl hno
    rw [List.append_nil] at h
    rw [h]
    simp [extractLoop]
  · intro before_inst l after_inst hl hbefore hinst
    subst hl
    rw [extractLoop_outside_skip ⟨false, 0, [], app.alerts⟩ before_inst _ rfl hbefore,
      extractLoop_cons_continue _ _ _ _ (extractLine_inst _ l rfl hinst)]
    simp

/-- C5 at a file whose second line trims to `inst` and whose third line is an
instance line: the extraction is usable and its list is not empty. -/
theorem Extract_usable_iff_witness :
    (Extract
        (oneFile "a.ipl".toList
          ["1, 2, 3, 4, 5, 6".toList, "\t inst".toList, "7, 8, 9, 1, 2, 3".toList, "end".toList])
        ⟨some "a.ipl".toList, "HideMapObject".toList, [], []⟩ []).2.1 ≠ [] :=
  (Extract_usable_iff
    (oneFile "a.ipl".toList
      ["1, 2, 3, 4, 5, 6".toList, "\t inst".toList, "7, 8, 9, 1, 2, 3".toList, "end".toList])
    ⟨some "a.ipl".toList, "HideMapObject".toList, [], []⟩ "a.ipl".toList
    ["1, 2, 3, 4, 5, 6".toList, "\t inst".toList, "7, 8, 9, 1, 2, 3".toList, "end".toList]
    rfl (by decide) (by decide)).2.1 (by decide)

/-- C6: lines outside the first `inst`...`end` block contribute no record. For lines
`outside_before` none of which trims to `inst`, a body none of whose lines trims to
`end`, and any lines `outside_after`, the records extracted from
`outside_before ++ [inst] ++ body ++ [end] ++ outside_after` are the records extracted
from `[inst] ++ body ++ [end]`. -/
theorem Extract_ignores_outside (app : App) (path : Str)
    (outside_before body outside_after : List Str)
    (hpath : app.m_InputPath = some path) (hne : path ≠ [])
    (hbefore : ∀ l ∈ outside_before, stripLine l ≠ some ['i', 'n', 's', 't'])
    (_hbody : ∀ l ∈ body, stripLine l ≠ some ['e', 'n', 'd']) :
    (Extract
        (oneFile path
          (outside_before ++ [['i', 'n', 's', 't']] ++ body ++ [['e', 'n', 'd']] ++ outside_after))
        app []).2.1
      = (Extract (oneFile path ([['i', 'n', 's', 't']] ++ body ++ [['e', 'n', 'd']])) app []).2.1 := by
  rw [Extract_opened _ app path _ [] hpath hne (oneFile_self _ _),
    Extract_opened _ app path _ [] hpath hne (oneFile_self _ _)]
  have hinst : stripLine ['i', 'n', 's', 't'] = some ['i', 'n', 's', 't'] := by decide
  have hl : outside_before ++ [['i', 'n', 's', 't']] ++ body ++ [['e', 'n', 'd']] ++ outside_after
      = outside_before ++ (['i', 'n', 's', 't'] :: (body ++ ['e', 'n', 'd'] :: outside_after)) := by
    simp
  have hr : [['i', 'n', 's', 't']] ++ body ++ [['e', 'n', 'd']]
      = ['i', 'n', 's', 't'] :: (body ++ [['e', 'n', 'd']]) := by
    simp
  simp only [hl, hr]
  rw [extractLoop_outside_skip ⟨false, 0, [], app.alerts⟩ outside_before _ rfl hbefore,
    extractLoop_cons_continue _ _ _ _ (extractLine_inst _ _ rfl hinst),
    extractLoop_cons_continue _ _ _ _ (extractLine_inst _ _ rfl hinst),
    extractLoop_end _ body outside_after rfl]
  refine (extractLoop_congr _ _ _ ?_ ?_).2 <;> rfl

/-- C6 at a file with an instance line before `inst` and a second block after `end`:
only the record of the first block is extracted. -/
theorem Extract_ignores_outside_witness :
    (Extract
        (oneFile "a.ipl".toList
          (["9, 9, 9, 9, 9, 9".toList, "# inst".toList] ++ [['i', 'n', 's', 't']]
            ++ ["1, 2, 3, 4, 5, 6".toList] ++ [['e', 'n', 'd']]
            ++ ["8, 8, 8, 8, 8, 8".toList, "inst".toList, "7, 7, 7, 7, 7, 7".toList, "end".toList]))
        ⟨some "a.ipl".toList, "HideMapObject".toList, [], []⟩ []).2.1
      = (Extract
          (oneFile "a.ipl".toList
            ([['i', 'n', 's', 't']] ++ ["1, 2, 3, 4, 5, 6".toList] ++ [['e', 'n', 'd']]))
          ⟨some "a.ipl".toList, "HideMapObject".toList, [], []⟩ []).2.1 :=
  Extract_ignores_outside ⟨some "a.ipl".toList, "HideMapObject".toList, [], []⟩ "a.ipl".toList
    ["9, 9, 9, 9, 9, 9".toList, "# inst".toList] ["1, 2, 3, 4, 5, 6".toList]
    ["8, 8, 8, 8, 8, 8".toList, "inst".toList, "7, 7, 7, 7, 7, 7".toList, "end".toList]
    rfl (by decide) (by decide) (by decide)

/-! ## Lines whose values do not convert -/

/-- C7, as stated, fails: a token with non-numeric content after a number converts.
Inside the instance section the line `12abc, a, b, 1.5, 2.5, 3.5x` has six tokens, its
id token is `12abc` and its z token `3.5x`; the record (12, 1.5, 2.5, 3.5) is appended
and no alert is shown. -/
theorem extractLine_accepts_leading_number :
    Explode "12abc, a, b, 1.5, 2.5, 3.5x".toList
      = ["12abc".toList, "a".toList, "b".toList, "1.5".toList, "2.5".toList, "3.5x".toList] ∧
    extractLine ⟨true, 1, [], []⟩ "12abc, a, b, 1.5, 2.5, 3.5x".toList
      = (⟨true, 2, [Instance.mk 12 (Dbl.finite false (3 * (Dbl.one / 2)))
          (Dbl.finite false (5 * (Dbl.one / 2))) (Dbl.finite false (7 * (Dbl.one / 2)))], []⟩,
        false) := by
  refine ⟨?_, ?_⟩ <;> decide

/-- C7, amended: for every line inside the instance section that is not a comment and
has at least 6 tokens, if the conversion of the id token (token 0, by `stoi`) or of one
of the x/y/z tokens (tokens 3, 4, 5, by `stod`) fails, that is the token does not start
with a number or the number is out of range, then the iteration appends no record,
shows "Unable to extract values" with that line's number, and the loop goes on with
the following lines. -/
theorem extractLine_unable (st : ExtractState) (line : Str) (rest : List Str)
    (hin : st.in_inst = true)
    (hnc : ∀ l, stripLine line = some l → front l ≠ '#')
    (htok : 6 ≤ (Explode line).length)
    (hfail : stoi ((Explode line).getD 0 []) = none ∨ stod ((Explode line).getD 3 []) = none ∨
      stod ((Explode line).getD 4 []) = none ∨ stod ((Explode line).getD 5 []) = none) :
    extractLine st line
      = (⟨true, st.lnum + 1, st.inst_list,
          st.alerts ++ [Alert.unableToExtract (st.lnum + 1)]⟩, false) ∧
    extractLoop st (line :: rest)
      = extractLoop ⟨true, st.lnum + 1, st.inst_list,
          st.alerts ++ [Alert.unableToExtract (st.lnum + 1)]⟩ rest := by
  have hstep : extractLine st line
      = (⟨true, st.lnum + 1, st.inst_list,
          st.alerts ++ [Alert.unableToExtract (st.lnum + 1)]⟩, false) := by
    cases h : stripLine line with
    | none =>
      rw [Explode_of_stripLine_none line h] at htok
      simp at htok
    | some l =>
      have he : l ≠ "end".toList := by
        rintro rfl
        have h1 : Explode "end".toList = ["end".toList] := by decide
        rw [← Explode_stripLine line _ h, h1] at htok
        simp at htok
      rw [extractLine_data st line l hin h (hnc l h) he, if_neg (by omega)]
      revert hfail
      generalize stoi ((Explode line).getD 0 []) = o0
      generalize stod ((Explode line).getD 3 []) = o3
      generalize stod ((Explode line).getD 4 []) = o4
      generalize stod ((Explode line).getD 5 []) = o5
      intro hfail
      cases o0 <;> cases o3 <;> cases o4 <;> cases o5 <;> simp_all
  exact ⟨hstep, extractLoop_cons_continue _ _ _ _ hstep⟩

/-- The amended C7 at the line `abc, 1, 2, 3, 1e999, 5` read as line 5: the id token
has no digit and the y token overflows. -/
theorem extractLine_unable_witness :
    extractLine ⟨true, 4, [], []⟩ "abc, 1, 2, 3, 1e999, 5".toList
      = (⟨true, 5, [], [Alert.unableToExtract 5]⟩, false) :=
  (extractLine_unable ⟨true, 4, [], []⟩ "abc, 1, 2, 3, 1e999, 5".toList [] rfl (by decide)
    (by decide) (by decide)).1

/-! ## The render loop -/

/-- C8 fails on the code for a formatted text of exactly 512 characters: the test
`ret > sizeof(buffer)` lets it pass although `snprintf` kept only 511 of them. The XML
conversion of the line `1, a, b, 1e200, 1e200, 1e37` formats a block of 512
characters, shows no alert, and leaves 511 characters in the output: the block
without its final line feed. -/
theorem BuildXML_truncates_at_512 :
    (Extract
        (oneFile "a.ipl".toList
          ["inst".toList, "1, a, b, 1e200, 1e200, 1e37".toList, "end".toList])
        ⟨some "a.ipl".toList, "HideMapObject".toList, [], []⟩ []).1 = true ∧
    ((Extract
        (oneFile "a.ipl".toList
          ["inst".toList, "1, a, b, 1e200, 1e200, 1e37".toList, "end".toList])
        ⟨some "a.ipl".toList, "HideMapObject".toList, [], []⟩ []).2.1.map
          (fun inst => (xmlText inst).length)) = [512] ∧
    (BuildXML
        (oneFile "a.ipl".toList
          ["inst".toList, "1, a, b, 1e200, 1e200, 1e37".toList, "end".toList])
        ⟨some "a.ipl".toList, "HideMapObject".toList, [], []⟩).map
          (fun app => (app.alerts, app.m_OutputBuffer.length)) = some ([], 511) ∧
    (BuildXML
        (oneFile "a.ipl".toList
          ["inst".toList, "1, a, b, 1e200, 1e200, 1e37".toList, "end".toList])
        ⟨some "a.ipl".toList, "HideMapObject".toList, [], []⟩).map (fun app => app.m_OutputBuffer)
      = some (concatTexts ((Extract
          (oneFile "a.ipl".toList
            ["inst".toList, "1, a, b, 1e200, 1e200, 1e37".toList, "end".toList])
          ⟨some "a.ipl".toList, "HideMapObject".toList, [], []⟩ []).2.1.map xmlText)).dropLast := by
  refine ⟨?_, ?_, ?_, ?_⟩ <;> decide

/-- C9: in each of the three modes, for every function name and record sequence, if a
record's formatted text is longer than 512 and the texts of the records before it are
not, the render aborts at that record: the records before it are rendered without
alert, the overflow alert cites the record's 1-based position, and the result is the
same whatever records follow. -/
theorem render_overflow_aborts (mode : Mode) (funcName : Str) (app : App)
    (earlier later : List Instance) (r : Instance) (t : Str)
    (hearlier : ∀ p ∈ earlier, ∃ u, mode.format funcName p = some u ∧ u.length ≤ 512)
    (hr : mode.format funcName r = some t) (hlong : 512 < t.length) :
    ∃ a, render (mode.format funcName) app earlier = some a ∧ a.alerts = app.alerts ∧
      render (mode.format funcName) app (earlier ++ r :: later)
        = some (a.alert (Alert.bufferOverflow (earlier.length + 1))) := by
  have h := buildLoop_append (mode.format funcName) 0 { app with m_OutputBuffer := [] }
    earlier [] hearlier
  rw [List.append_nil] at h
  refine ⟨_, h, rfl, ?_⟩
  unfold render
  rw [buildLoop_append (mode.format funcName) 0 { app with m_OutputBuffer := [] } earlier _
    hearlier, buildLoop_overflow _ _ _ r later t hr hlong]
  simp

/-- C9 in XML mode: the second of three records holds the largest double twice, its
block is longer than 512, and the render aborts there with the alert for line 2. -/
theorem render_overflow_aborts_witness :
    ∃ a, render (Mode.xml.format "HideMapObject".toList)
          ⟨some "a.ipl".toList, "HideMapObject".toList, "old".toList, []⟩
          [Instance.mk 1 (Dbl.finite false 0) (Dbl.finite false 0) (Dbl.finite false 0)] = some a ∧
      a.alerts = [] ∧
      render (Mode.xml.format "HideMapObject".toList)
          ⟨some "a.ipl".toList, "HideMapObject".toList, "old".toList, []⟩
          ([Instance.mk 1 (Dbl.finite false 0) (Dbl.finite false 0) (Dbl.finite false 0)] ++
            Instance.mk 2 (Dbl.finite false ((2 ^ 53 - 1) * 2 ^ 2045))
              (Dbl.finite false ((2 ^ 53 - 1) * 2 ^ 2045)) (Dbl.finite false 0) ::
            [Instance.mk 3 (Dbl.finite false 0) (Dbl.finite false 0) (Dbl.finite false 0)])
        = some (a.alert (Alert.bufferOverflow
            ([Instance.mk 1 (Dbl.finite false 0) (Dbl.finite false 0) (Dbl.finite false 0)].length
              + 1))) :=
  render_overflow_aborts Mode.xml "HideMapObject".toList
    ⟨some "a.ipl".toList, "HideMapObject".toList, "old".toList, []⟩
    [Instance.mk 1 (Dbl.finite false 0) (Dbl.finite false 0) (Dbl.finite false 0)]
    [Instance.mk 3 (Dbl.finite false 0) (Dbl.finite false 0) (Dbl.finite false 0)]
    (Instance.mk 2 (Dbl.finite false ((2 ^ 53 - 1) * 2 ^ 2045))
      (Dbl.finite false ((2 ^ 53 - 1) * 2 ^ 2045)) (Dbl.finite false 0))
    (xmlText (Instance.mk 2 (Dbl.finite false ((2 ^ 53 - 1) * 2 ^ 2045))
      (Dbl.finite false ((2 ^ 53 - 1) * 2 ^ 2045)) (Dbl.finite false 0)))
    (by decide) rfl (by decide)

/-- C10, as stated, fails: the partial output stays in the output buffer. The XML
conversion of a file whose second instance line holds `1e300` twice aborts at record 2
with the overflow alert, and the buffer, which held `old`, then holds the block of
record 1. -/
theorem BuildXML_keeps_partial_output :
    BuildXML
        (oneFile "a.ipl".toList
          ["inst".toList, "1, a, b, 0, 0, 0".toList, "2, a, b, 1e300, 1e300, 0".toList,
            "3, a, b, 0, 0, 0".toList, "end".toList])
        ⟨some "a.ipl".toList, "HideMapObject".toList, "old".toList, []⟩
      = some ⟨some "a.ipl".toList, "HideMapObject".toList,
          "<rule model=\"1\">\n\t<position x=\"0.000000\" y=\"0.000000\" z=\"0.000000\" />\n</rule>\n".toList,
          [Alert.bufferOverflow 2]⟩ := by
  decide

/-- C10, amended: when a render aborts with the overflow alert at the k-th record,
the output buffer holds exactly the formatted texts of records 1..k-1, in order (each
shorter than 512 and so complete); what the buffer held before the render is gone, the
partial output is kept. -/
theorem render_abort_keeps_partial (mode : Mode) (funcName : Str) (app : App)
    (earlier later : List Instance) (r : Instance) (t : Str)
    (hearlier : ∀ p ∈ earlier, ∃ u, mode.format funcName p = some u ∧ u.length < 512)
    (hr : mode.format funcName r = some t) (hlong : 512 < t.length) :
    render (mode.format funcName) app (earlier ++ r :: later)
      = some ⟨app.m_InputPath, app.m_FuncName,
          concatTexts (earlier.map (fun p => (mode.format funcName p).getD [])),
          app.alerts ++ [Alert.bufferOverflow (earlier.length + 1)]⟩ := by
  have hle : ∀ p ∈ earlier, ∃ u, mode.format funcName p = some u ∧ u.length ≤ 512 := by
    intro p hp
    obtain ⟨u, hu, hlt⟩ := hearlier p hp
    exact ⟨u, hu, by omega⟩
  have htake : earlier.map (fun p => ((mode.format funcName p).getD []).take 511)
      = earlier.map (fun p => (mode.format funcName p).getD []) := by
    apply List.map_congr_left
    intro p hp
    obtain ⟨u, hu, hlt⟩ := hearlier p hp
    simp only [hu, Option.getD_some]
    exact List.take_of_length_le (by omega)
  unfold render
  rw [buildLoop_append (mode.format funcName) 0 { app with m_OutputBuffer := [] } earlier _ hle,
    buildLoop_overflow _ _ _ r later t hr hlong, htake]
  simp [App.alert]

/-- The amended C10 in NUT mode with a function name of 470 characters: record 2 does
not fit, the buffer holds the line of record 1. -/
theorem render_abort_keeps_partial_witness :
    render (Mode.nut.format (List.replicate 470 'F'))
        ⟨some "a.ipl".toList, List.replicate 470 'F', "old".toList, []⟩
        ([Instance.mk 1 (Dbl.finite false 0) (Dbl.finite false 0) (Dbl.finite false 0)] ++
          Instance.mk 2 (Dbl.finite false (10 ^ 10 * Dbl.one)) (Dbl.finite false 0)
            (Dbl.finite false 0) :: [])
      = some ⟨some "a.ipl".toList, List.replicate 470 'F',
          concatTexts
            ([Instance.mk 1 (Dbl.finite false 0) (Dbl.finite false 0) (Dbl.finite false 0)].map
              (fun p => (Mode.nut.format (List.replicate 470 'F') p).getD [])),
          [] ++ [Alert.bufferOverflow
            ([Instance.mk 1 (Dbl.finite false 0) (Dbl.finite false 0) (Dbl.finite false 0)].length
              + 1)]⟩ :=
  render_abort_keeps_partial Mode.nut (List.replicate 470 'F')
    ⟨some "a.ipl".toList, List.replicate 470 'F', "old".toList, []⟩
    [Instance.mk 1 (Dbl.finite false 0) (Dbl.finite false 0) (Dbl.finite false 0)] []
    (Instance.mk 2 (Dbl.finite false (10 ^ 10 * Dbl.one)) (Dbl.finite false 0)
      (Dbl.finite false 0))
    (nutText (List.replicate 470 'F')
      (Instance.mk 2 (Dbl.finite false (10 ^ 10 * Dbl.one)) (Dbl.finite false 0)
        (Dbl.finite false 0)))
    (by decide) rfl (by decide)

/-! ## Conversions with nothing to process -/

/-- C11, as stated, fails: no conversion shows a "nothing to process" diagnostic. For
a file whose instance section is never entered, and for files whose section is entered
and holds no record, each conversion returns the window as it was: no alert at all is
shown. -/
theorem Build_nothing_to_process_silent :
    BuildXML (oneFile "a.ipl".toList ["1, 2, 3, 4, 5, 6".toList])
        ⟨some "a.ipl".toList, "HideMapObject".toList, "old".toList, []⟩
      = some ⟨some "a.ipl".toList, "HideMapObject".toList, "old".toList, []⟩ ∧
    BuildNUT (oneFile "a.ipl".toList ["inst".toList, "end".toList])
        ⟨some "a.ipl".toList, "HideMapObject".toList, "old".toList, []⟩
      = some ⟨some "a.ipl".toList, "HideMapObject".toList, "old".toList, []⟩ ∧
    BuildRAW (oneFile "a.ipl".toList ["inst".toList, "# 1, 2, 3, 4, 5, 6".toList, "end".toList])
        ⟨some "a.ipl".toList, "HideMapObject".toList, "old".toList, []⟩
      = some ⟨some "a.ipl".toList, "HideMapObject".toList, "old".toList, []⟩ := by
  refine ⟨?_, ?_, ?_⟩ <;> decide

/-- C11, amended: whenever the file opens but the instance section is never entered,
or is entered and zero records are parsed, the conversion stops without a diagnostic
of its own: the window it returns differs from the one before only by the per-line
warnings of the extraction, each the warning of a line of the file with that line's
number. -/
theorem Build_unusable_alerts (mode : Mode) (files : Str → Option (List Str)) (app : App)
    (path : Str) (lines : List Str) (hpath : app.m_InputPath = some path) (hne : path ≠ [])
    (hfile : files path = some lines)
    (hcase : (∀ l ∈ lines, stripLine l ≠ some ['i', 'n', 's', 't']) ∨
      (Extract files app []).2.1 = []) :
    ∃ warnings,
      Build mode files app
        = some ⟨app.m_InputPath, app.m_FuncName, app.m_OutputBuffer, app.alerts ++ warnings⟩ ∧
      ∀ a ∈ warnings, ∃ k line, lines[k]? = some line ∧ lineWarning a (k + 1) line := by
  have hflag := Extract_unusable files app path lines hpath hne hfile hcase
  obtain ⟨warnings, hw, hall⟩ := extractLoop_alerts ⟨false, 0, [], app.alerts⟩ lines
  refine ⟨warnings, ?_, fun a ha => ?_⟩
  · rw [Build_of_unusable mode files app hflag,
      Extract_opened files app path lines [] hpath hne hfile]
    simp only [hw]
  · obtain ⟨k, line, hk, hlw⟩ := hall a ha
    exact ⟨k, line, hk, by simpa using hlw⟩

/-- The amended C11 at a file whose section holds only a line of three tokens: the
XML conversion shows the warning of line 2 and nothing else. -/
theorem Build_unusable_alerts_witness :
    ∃ warnings,
      Build Mode.xml
          (oneFile "a.ipl".toList ["inst".toList, "abc, 1, 2".toList, "end".toList])
          ⟨some "a.ipl".toList, "HideMapObject".toList, "old".toList, []⟩
        = some ⟨some "a.ipl".toList, "HideMapObject".toList, "old".toList, [] ++ warnings⟩ ∧
      ∀ a ∈ warnings, ∃ k line,
        ["inst".toList, "abc, 1, 2".toList, "end".toList][k]? = some line ∧
          lineWarning a (k + 1) line :=
  Build_unusable_alerts Mode.xml
    (oneFile "a.ipl".toList ["inst".toList, "abc, 1, 2".toList, "end".toList])
    ⟨some "a.ipl".toList, "HideMapObject".toList, "old".toList, []⟩ "a.ipl".toList
    ["inst".toList, "abc, 1, 2".toList, "end".toList] rfl (by decide) (by decide)
    (Or.inr (by decide))

/-- C12: whenever the extraction is not usable, that is no path is given, the file
cannot be opened, no line trims to `inst`, or zero records are parsed, each of the
three conversions leaves in the output buffer exactly the text it held before. -/
theorem Build_unusable_keeps_output (mode : Mode) (files : Str → Option (List Str))
    (app : App)
    (hcase : app.m_InputPath = none ∨ app.m_InputPath = some [] ∨
      (∃ path, app.m_InputPath = some path ∧ files path = none) ∨
      (∃ path lines, app.m_InputPath = some path ∧ files path = some lines ∧
        ∀ l ∈ lines, stripLine l ≠ some ['i', 'n', 's', 't']) ∨
      (Extract files app []).2.1 = []) :
    (Extract files app []).1 = false ∧
    ∃ a, Build mode files app = some a ∧ a.m_OutputBuffer = app.m_OutputBuffer := by
  have hflag : (Extract files app []).1 = false := by
    rcases hcase with h | h | ⟨path, h, hf⟩ | ⟨path, lines, h, hf, hno⟩ | hempty
    · simp [Extract, h]
    · simp [Extract, h]
    · cases path with
      | nil => simp [Extract, h]
      | cons c cs => simp [Extract, h, hf]
    · cases path with
      | nil => simp [Extract, h]
      | cons c cs =>
        exact Extract_unusable files app (c :: cs) lines h (by simp) hf (Or.inl hno)
    · cases hp : app.m_InputPath with
      | none => simp [Extract, hp]
      | some path =>
        cases path with
        | nil => simp [Extract, hp]
        | cons c cs =>
          cases hf : files (c :: cs) with
          | none => simp [Extract, hp, hf]
          | some lines =>
            exact Extract_unusable files app (c :: cs) lines hp (by simp) hf (Or.inr hempty)
  exact ⟨hflag, _, Build_of_unusable mode files app hflag, (Extract_widgets files app []).2.2⟩

/-- C12 at a file that cannot be opened: the RAW conversion leaves `old` in the
output buffer. -/
theorem Build_unusable_keeps_output_witness :
    (Extract (oneFile "a.ipl".toList []) ⟨some "b.ipl".toList, "HideMapObject".toList,
        "old".toList, []⟩ []).1 = false ∧
    ∃ a, Build Mode.raw (oneFile "a.ipl".toList [])
          ⟨some "b.ipl".toList, "HideMapObject".toList, "old".toList, []⟩ = some a ∧
      a.m_OutputBuffer = "old".toList :=
  Build_unusable_keeps_output Mode.raw (oneFile "a.ipl".toList [])
    ⟨some "b.ipl".toList, "HideMapObject".toList, "old".toList, []⟩
    (Or.inr (Or.inr (Or.inl ⟨"b.ipl".toList, rfl, by decide⟩)))

/-! ## Blank lines, short lines and the end of the section -/

/-- C13, as stated, fails inside the instance section for the empty line and for
lines that hold a NUL: they are not skipped. The empty line, the line made of one NUL
and the line made of a space and a NUL are tokenized and raise the wrong-token-count
warning; in the file `inst`, empty line, `1, 2, 3, 4, 5, 6`, `end` the empty line
gives the warning of line 2. -/
theorem extractLine_empty_or_nul_warns :
    extractLine ⟨true, 1, [], []⟩ [] = (⟨true, 2, [], [Alert.wrongTokenCount 2]⟩, false) ∧
    extractLine ⟨true, 1, [], []⟩ ['\x00']
      = (⟨true, 2, [], [Alert.wrongTokenCount 2]⟩, false) ∧
    extractLine ⟨true, 1, [], []⟩ [' ', '\x00']
      = (⟨true, 2, [], [Alert.wrongTokenCount 2]⟩, false) ∧
    (extractLoop ⟨false, 0, [], []⟩
        ["inst".toList, [], "1, 2, 3, 4, 5, 6".toList, "end".toList]).alerts
      = [Alert.wrongTokenCount 2] := by
  refine ⟨?_, ?_, ?_, ?_⟩ <;> decide

/-- C13, amended: a non-empty line made only of space, tab, line feed, vertical tab,
form feed and carriage return characters is skipped wherever it occurs, also inside
the instance section: the iteration only counts the line, it appends no record, shows
no alert and leaves the section flag as it is, and the loop goes on. Before the
instance section is entered the same holds for the empty line and for lines that also
hold NUL characters. -/
theorem extractLine_blank_skipped (st : ExtractState) (line : Str) (rest : List Str)
    (hne : line ≠ []) (hsp : ∀ c ∈ line, isspace c = true) :
    extractLine st line = (⟨st.in_inst, st.lnum + 1, st.inst_list, st.alerts⟩, false) ∧
    extractLoop st (line :: rest)
      = extractLoop ⟨st.in_inst, st.lnum + 1, st.inst_list, st.alerts⟩ rest ∧
    (∀ (st' : ExtractState) (line' : Str), st'.in_inst = false →
      (∀ c ∈ line', isspace c = true ∨ c = '\x00') →
      extractLine st' line' = (⟨false, st'.lnum + 1, st'.inst_list, st'.alerts⟩, false)) := by
  have hstep := extractLine_blank st line (stripLine_blank line hne hsp)
  refine ⟨hstep, extractLoop_cons_continue _ _ _ _ hstep, ?_⟩
  intro st' line' hin hall
  rw [extractLine_outside st' line' hin]
  have hno : stripLine line' ≠ some ['i', 'n', 's', 't'] := by
    intro h
    obtain ⟨ws, hws, _, _⟩ := stripLine_some line' _ h
    have hi : 'i' ∈ line' := by
      rw [hws]
      simp
    rcases hall 'i' hi with h1 | h1
    · exact absurd h1 (by decide)
    · exact absurd h1 (by decide)
  simp [hno]

/-- The amended C13 at a line of a tab and a carriage return inside the section. -/
theorem extractLine_blank_skipped_witness :
    extractLine ⟨true, 3, [], []⟩ ['\t', '\r'] = (⟨true, 4, [], []⟩, false) :=
  (extractLine_blank_skipped ⟨true, 3, [], []⟩ ['\t', '\r'] [] (by decide) (by decide)).1

/-- C14: a line inside the instance section that is tokenized (it is not skipped as
blank or comment and is not the closing `end`) into fewer than 6 tokens appends no
record, shows the wrong-token-count warning with its line number, and the loop goes
on; the records extracted from a file are the records extracted from the file without
that line. -/
theorem extractLine_few_tokens (st : ExtractState) (line l : Str) (rest : List Str)
    (hin : st.in_inst = true) (hs : stripLine line = some l) (hc : front l ≠ '#')
    (he : l ≠ ['e', 'n', 'd']) (hlen : (Explode line).length < 6) :
    extractLine st line
      = (⟨true, st.lnum + 1, st.inst_list,
          st.alerts ++ [Alert.wrongTokenCount (st.lnum + 1)]⟩, false) ∧
    (extractLoop st (line :: rest)).inst_list = (extractLoop st rest).inst_list ∧
    (∀ (app : App) (path : Str) (outside_before body after_line : List Str),
      app.m_InputPath = some path → path ≠ [] →
      (∀ m ∈ outside_before, stripLine m ≠ some ['i', 'n', 's', 't']) →
      (∀ m ∈ body, stripLine m ≠ some ['e', 'n', 'd']) →
      (Extract
          (oneFile path (outside_before ++ [['i', 'n', 's', 't']] ++ body ++ [line] ++ after_line))
          app []).2.1
        = (Extract
            (oneFile path (outside_before ++ [['i', 'n', 's', 't']] ++ body ++ after_line))
            app []).2.1) := by
  have hstep : ∀ s : ExtractState, s.in_inst = true → extractLine s line
      = (⟨true, s.lnum + 1, s.inst_list,
          s.alerts ++ [Alert.wrongTokenCount (s.lnum + 1)]⟩, false) := by
    intro s hs_in
    rw [extractLine_data s line l hs_in hs hc he, if_pos hlen]
  have hloop : ∀ (s : ExtractState) (r : List Str), s.in_inst = true →
      (extractLoop s (line :: r)).inst_list = (extractLoop s r).inst_list := by
    intro s r hs_in
    rw [extractLoop_cons_continue _ _ _ _ (hstep s hs_in)]
    refine (extractLoop_congr _ _ _ ?_ ?_).2
    · exact hs_in.symm
    · rfl
  refine ⟨hstep st hin, hloop st rest hin, ?_⟩
  intro app path outside_before body after_line hpath hne hbefore hbody
  rw [Extract_opened _ app path _ [] hpath hne (oneFile_self _ _),
    Extract_opened _ app path _ [] hpath hne (oneFile_self _ _)]
  have hinst : stripLine ['i', 'n', 's', 't'] = some ['i', 'n', 's', 't'] := by decide
  have hl : outside_before ++ [['i', 'n', 's', 't']] ++ body ++ [line] ++ after_line
      = outside_before ++ (['i', 'n', 's', 't'] :: (body ++ line :: after_line)) := by
    simp
  have hr : outside_before ++ [['i', 'n', 's', 't']] ++ body ++ after_line
      = outside_before ++ (['i', 'n', 's', 't'] :: (body ++ after_line)) := by
    simp
  simp only [hl, hr]
  rw [extractLoop_outside_skip ⟨false, 0, [], app.alerts⟩ outside_before _ rfl hbefore,
    extractLoop_outside_skip ⟨false, 0, [], app.alerts⟩ outside_before _ rfl hbefore,
    extractLoop_cons_continue _ _ _ _ (extractLine_inst _ _ rfl hinst),
    extractLoop_cons_continue _ _ _ _ (extractLine_inst _ _ rfl hinst),
    extractLoop_append _ body _ hbody, extractLoop_append _ body _ hbody]
  exact hloop _ _ (extractLoop_in_inst _ _ rfl)

/-- C14 at the line `abc, 1, 2` read as line 3 of the section. -/
theorem extractLine_few_tokens_witness :
    extractLine ⟨true, 2, [], []⟩ "abc, 1, 2".toList
      = (⟨true, 3, [], [Alert.wrongTokenCount 3]⟩, false) :=
  (extractLine_few_tokens ⟨true, 2, [], []⟩ "abc, 1, 2".toList "abc, 1, 2".toList [] rfl
    (by decide) (by decide) (by decide) (by decide)).1

/-- C15: reaching the end of the file without an `end` line is the same as reaching
`end`. For every body none of whose lines trims to `end`, the extraction from
`[inst] ++ body` and the extraction from `[inst] ++ body ++ [end]` return the same
flag, the same records and the same alerts. -/
theorem Extract_eof_as_end (app : App) (path : Str) (body : List Str)
    (hpath : app.m_InputPath = some path) (hne : path ≠ [])
    (hbody : ∀ l ∈ body, stripLine l ≠ some ['e', 'n', 'd']) :
    Extract (oneFile path ([['i', 'n', 's', 't']] ++ body)) app []
      = Extract (oneFile path ([['i', 'n', 's', 't']] ++ body ++ [['e', 'n', 'd']])) app [] := by
  rw [Extract_opened _ app path _ [] hpath hne (oneFile_self _ _),
    Extract_opened _ app path _ [] hpath hne (oneFile_self _ _)]
  have hinst : stripLine ['i', 'n', 's', 't'] = some ['i', 'n', 's', 't'] := by decide
  have hl : [['i', 'n', 's', 't']] ++ body = ['i', 'n', 's', 't'] :: body := rfl
  have hr : [['i', 'n', 's', 't']] ++ body ++ [['e', 'n', 'd']]
      = ['i', 'n', 's', 't'] :: (body ++ [['e', 'n', 'd']]) := by
    simp
  rw [hr, hl]
  rw [extractLoop_cons_continue _ _ _ _ (extractLine_inst ⟨false, 0, [], app.alerts⟩ _ rfl hinst),
    extractLoop_cons_continue _ _ _ _ (extractLine_inst ⟨false, 0, [], app.alerts⟩ _ rfl hinst),
    extractLoop_append _ body _ hbody]
  have hopen := extractLoop_in_inst ⟨true, 0 + 1, [], app.alerts⟩ body rfl
  have hend := extractLine_end (extractLoop ⟨true, 0 + 1, [], app.alerts⟩ body)
    ['e', 'n', 'd'] hopen (by decide)
  rw [extractLoop_cons_break _ _ _ _ hend]
  simp only [hopen]

/-- C15 at a body of one instance line and one short line. -/
theorem Extract_eof_as_end_witness :
    Extract
        (oneFile "a.ipl".toList
          ([['i', 'n', 's', 't']] ++ ["1, 2, 3, 4, 5, 6".toList, "abc, 1, 2".toList]))
        ⟨some "a.ipl".toList, "HideMapObject".toList, [], []⟩ []
      = Extract
          (oneFile "a.ipl".toList
            ([['i', 'n', 's', 't']] ++ ["1, 2, 3, 4, 5, 6".toList, "abc, 1, 2".toList]
              ++ [['e', 'n', 'd']]))
          ⟨some "a.ipl".toList, "HideMapObject".toList, [], []⟩ [] :=
  Extract_eof_as_end ⟨some "a.ipl".toList, "HideMapObject".toList, [], []⟩ "a.ipl".toList
    ["1, 2, 3, 4, 5, 6".toList, "abc, 1, 2".toList] rfl (by decide) (by decide)

/-! ## Function names and repeated conversions -/

/-- C16 fails on the code when a line is exactly 512 characters long, by the same
off-by-one as in C8. For the record (1, 0, 0, 0) the float call mode with a function
name of 477 characters shows no alert and outputs the name followed by
`(1, 0.000000, 0.000000, 0.000000);` without the final line feed, while with the
name `HideMapObject` the line ends with the line feed: the text after the name is not
the same. -/
theorem BuildNUT_name_changes_line :
    BuildNUT
        (oneFile "a.ipl".toList ["inst".toList, "1, a, b, 0, 0, 0".toList, "end".toList])
        ⟨some "a.ipl".toList, List.replicate 477 'F', [], []⟩
      = some ⟨some "a.ipl".toList, List.replicate 477 'F',
          List.replicate 477 'F' ++ "(1, 0.000000, 0.000000, 0.000000);".toList, []⟩ ∧
    BuildNUT
        (oneFile "a.ipl".toList ["inst".toList, "1, a, b, 0, 0, 0".toList, "end".toList])
        ⟨some "a.ipl".toList, "HideMapObject".toList, [], []⟩
      = some ⟨some "a.ipl".toList, "HideMapObject".toList,
          "HideMapObject".toList ++ "(1, 0.000000, 0.000000, 0.000000);\n".toList, []⟩ := by
  refine ⟨?_, ?_⟩ <;> decide

/-- C17: triggering the same conversion twice in succession leaves in the output
buffer after the second run the text it held after the first run; and when the
extraction is usable that text is the same for every window with the same input path
and function name, whatever its output buffer and alerts held before. -/
theorem Build_twice (mode : Mode) (files : Str → Option (List Str)) (app first : App)
    (h1 : Build mode files app = some first) :
    (∃ second, Build mode files first = some second ∧
      second.m_OutputBuffer = first.m_OutputBuffer) ∧
    (∀ other : App, other.m_InputPath = app.m_InputPath → other.m_FuncName = app.m_FuncName →
      (Extract files app []).1 = true →
      (Build mode files other).map (fun a => a.m_OutputBuffer) = some first.m_OutputBuffer) := by
  cases hflag : (Extract files app []).1 with
  | false =>
    rw [Build_of_unusable mode files app hflag, Option.some.injEq] at h1
    obtain ⟨hp, _, _⟩ := Extract_widgets files app []
    rw [h1] at hp
    have hflag' : (Extract files first []).1 = false := by
      rw [(Extract_frame files first app [] hp).1, hflag]
    refine ⟨⟨_, Build_of_unusable mode files first hflag', (Extract_widgets files first []).2.2⟩,
      ?_⟩
    intro other _ _ hcon
    exact absurd hcon (by simp)
  | true =>
    have hw : first.m_InputPath = app.m_InputPath ∧ first.m_FuncName = app.m_FuncName := by
      simp only [Build, hflag, if_true, render] at h1
      obtain ⟨e1, e2⟩ := buildLoop_widgets _ _ _ _ _ h1
      obtain ⟨w1, w2, _⟩ := Extract_widgets files app []
      exact ⟨e1.trans w1, e2.trans w2⟩
    have hout : ∀ other : App, other.m_InputPath = app.m_InputPath →
        other.m_FuncName = app.m_FuncName →
        (Build mode files other).map (fun a => a.m_OutputBuffer) = some first.m_OutputBuffer := by
      intro other hp hn
      rw [Build_output_congr mode files app other hp hn hflag, h1]
      rfl
    refine ⟨?_, fun other hp hn _ => hout other hp hn⟩
    have h2 := hout first hw.1 hw.2
    obtain ⟨second, hs, hb⟩ := Option.map_eq_some'.mp h2
    exact ⟨second, hs, hb⟩

/-- C17 at a file with one instance line, in float call mode: after the first run the
buffer, which held `old`, holds the line of the record, and so it does after the
second run. -/
theorem Build_twice_witness :
    ∃ second,
      Build Mode.nut
          (oneFile "a.ipl".toList ["inst".toList, "1, a, b, 0, 0, 0".toList, "end".toList])
          ⟨some "a.ipl".toList, "HideMapObject".toList,
            "HideMapObject(1, 0.000000, 0.000000, 0.000000);\n".toList, []⟩ = some second ∧
        second.m_OutputBuffer
          = (App.mk (some "a.ipl".toList) "HideMapObject".toList
              "HideMapObject(1, 0.000000, 0.000000, 0.000000);\n".toList []).m_OutputBuffer :=
  (Build_twice Mode.nut
    (oneFile "a.ipl".toList ["inst".toList, "1, a, b, 0, 0, 0".toList, "end".toList])
    ⟨some "a.ipl".toList, "HideMapObject".toList, "old".toList, []⟩
    ⟨some "a.ipl".toList, "HideMapObject".toList,
      "HideMapObject(1, 0.000000, 0.000000, 0.000000);\n".toList, []⟩ (by decide)).1

/-! ## Line numbers and order -/

/-- C18: every iteration of the loop counts its line, whatever the line holds, and
every per-line warning that the extraction of an opened file shows is the warning of
one of the lines of the file and cites the 1-based index of that line in the whole
file. -/
theorem Extract_warning_line_numbers (files : Str → Option (List Str)) (app : App)
    (path : Str) (lines : List Str) (hpath : app.m_InputPath = some path) (hne : path ≠ [])
    (hfile : files path = some lines) :
    (∀ (st : ExtractState) (line : Str), (extractLine st line).1.lnum = st.lnum + 1) ∧
    ∃ warnings, (Extract files app []).2.2.alerts = app.alerts ++ warnings ∧
      ∀ a ∈ warnings, ∃ k line, lines[k]? = some line ∧ lineWarning a (k + 1) line := by
  refine ⟨fun st line => (extractLine_alerts st line).1, ?_⟩
  obtain ⟨warnings, hw, hall⟩ := extractLoop_alerts ⟨false, 0, [], app.alerts⟩ lines
  refine ⟨warnings, ?_, fun a ha => ?_⟩
  · rw [Extract_opened files app path lines [] hpath hne hfile]
    exact hw
  · obtain ⟨k, line, hk, hlw⟩ := hall a ha
    exact ⟨k, line, hk, by simpa using hlw⟩

/-- C18 at a file whose offending line is the sixth, after an empty line outside the
section, a comment, a pre-section line, the `inst` line and a blank line. -/
theorem Extract_warning_line_numbers_witness :
    (Extract
        (oneFile "a.ipl".toList
          [[], "# comment".toList, "1, 2, 3, 4, 5, 6".toList, "inst".toList, " \t".toList,
            "abc, 1, 2".toList])
        ⟨some "a.ipl".toList, "HideMapObject".toList, [], []⟩ []).2.2.alerts
      = [Alert.wrongTokenCount 6] ∧
    ∃ warnings,
      (Extract
          (oneFile "a.ipl".toList
            [[], "# comment".toList, "1, 2, 3, 4, 5, 6".toList, "inst".toList, " \t".toList,
              "abc, 1, 2".toList])
          ⟨some "a.ipl".toList, "HideMapObject".toList, [], []⟩ []).2.2.alerts
        = [] ++ warnings ∧
      ∀ a ∈ warnings, ∃ k line,
        [[], "# comment".toList, "1, 2, 3, 4, 5, 6".toList, "inst".toList, " \t".toList,
          "abc, 1, 2".toList][k]? = some line ∧ lineWarning a (k + 1) line :=
  ⟨by decide,
    (Extract_warning_line_numbers
      (oneFile "a.ipl".toList
        [[], "# comment".toList, "1, 2, 3, 4, 5, 6".toList, "inst".toList, " \t".toList,
          "abc, 1, 2".toList])
      ⟨some "a.ipl".toList, "HideMapObject".toList, [], []⟩ "a.ipl".toList
      [[], "# comment".toList, "1, 2, 3, 4, 5, 6".toList, "inst".toList, " \t".toList,
        "abc, 1, 2".toList] rfl (by decide) (by decide)).2⟩

/-- C19: records come out in file order and extraction distributes over the
concatenation of section bodies. For all line lists `b1` and `b2` where no line of `b1`
trims to `end`, the records extracted from `[inst] ++ b1 ++ b2` are the records
extracted from `[inst] ++ b1` followed by the records extracted from `[inst] ++ b2`. -/
theorem Extract_distributes (app : App) (path : Str) (b1 b2 : List Str)
    (hpath : app.m_InputPath = some path) (hne : path ≠ [])
    (hb1 : ∀ l ∈ b1, stripLine l ≠ some ['e', 'n', 'd']) :
    (Extract (oneFile path ([['i', 'n', 's', 't']] ++ b1 ++ b2)) app []).2.1
      = (Extract (oneFile path ([['i', 'n', 's', 't']] ++ b1)) app []).2.1
        ++ (Extract (oneFile path ([['i', 'n', 's', 't']] ++ b2)) app []).2.1 := by
  rw [Extract_opened _ app path _ [] hpath hne (oneFile_self _ _),
    Extract_opened _ app path _ [] hpath hne (oneFile_self _ _),
    Extract_opened _ app path _ [] hpath hne (oneFile_self _ _)]
  have hinst : stripLine ['i', 'n', 's', 't'] = some ['i', 'n', 's', 't'] := by decide
  have h12 : [['i', 'n', 's', 't']] ++ b1 ++ b2 = ['i', 'n', 's', 't'] :: (b1 ++ b2) := by simp
  have h1 : [['i', 'n', 's', 't']] ++ b1 = ['i', 'n', 's', 't'] :: b1 := rfl
  have h2 : [['i', 'n', 's', 't']] ++ b2 = ['i', 'n', 's', 't'] :: b2 := rfl
  rw [h12, h1, h2]
  simp only [extractLoop_cons_continue _ _ _ _
    (extractLine_inst ⟨false, 0, [], app.alerts⟩ _ rfl hinst)]
  rw [extractLoop_append _ b1 b2 hb1]
  refine extractLoop_inst_list_append _ _ b2 _ ?_ ?_
  · exact extractLoop_in_inst _ _ rfl
  · simp

/-- C19 at two bodies of one instance line each, the first followed by a short
line. -/
theorem Extract_distributes_witness :
    (Extract
        (oneFile "a.ipl".toList
          ([['i', 'n', 's', 't']] ++ ["1, 2, 3, 4, 5, 6".toList, "abc".toList]
            ++ ["7, 8, 9, 1, 2, 3".toList]))
        ⟨some "a.ipl".toList, "HideMapObject".toList, [], []⟩ []).2.1
      = (Extract
          (oneFile "a.ipl".toList
            ([['i', 'n', 's', 't']] ++ ["1, 2, 3, 4, 5, 6".toList, "abc".toList]))
          ⟨some "a.ipl".toList, "HideMapObject".toList, [], []⟩ []).2.1
        ++ (Extract
          (oneFile "a.ipl".toList ([['i', 'n', 's', 't']] ++ ["7, 8, 9, 1, 2, 3".toList]))
          ⟨some "a.ipl".toList, "HideMapObject".toList, [], []⟩ []).2.1 :=
  Extract_distributes ⟨some "a.ipl".toList, "HideMapObject".toList, [], []⟩ "a.ipl".toList
    ["1, 2, 3, 4, 5, 6".toList, "abc".toList] ["7, 8, 9, 1, 2, 3".toList] rfl (by decide)
    (by decide)

/-! ## The scaled coordinate as coded -/

/-- C20: as coded, the scaled-integer renderer floors before adding the 0.5 bias and
then truncates toward zero. For every coordinate `v` such that `n = floor(v * 10.0)` is
an `int`, it emits `n` when `n ≥ 0` and `n + 1` when `n < 0`; 1.25 is emitted as 12,
-1.0 as -9, and a negative coordinate whose tenfold value is exactly the integer `-c`
is emitted as `-c + 1`. -/
theorem rawCoord_as_coded (v : Dbl) (n : Int) (hn : v.mulTen.floorInt = some n)
    (hmin : INT_MIN ≤ n) (hmax : n ≤ INT_MAX) :
    rawCoord v = some (if 0 ≤ n then n else n + 1) ∧
    (stod "1.25".toList).bind rawCoord = some 12 ∧
    (stod "-1.0".toList).bind rawCoord = some (-9) ∧
    (∀ mag c : Nat, 10 * mag = c * Dbl.one → 1 ≤ c → c ≤ 2147483648 →
      rawCoord (Dbl.finite true mag) = some (-(c : Int) + 1)) := by
  refine ⟨rawCoord_of_floorInt v n hn hmin hmax, by decide, by decide, ?_⟩
  intro mag c hmag hc1 hc2
  have hpos : 0 < Dbl.one := Nat.two_pow_pos _
  have hj : 2 * c < 2 ^ 33 := by
    norm_num
    omega
  have hten : Dbl.mulTen (Dbl.finite true mag) = Dbl.finite true (c * Dbl.one) := by
    have e : c * Dbl.one = 2 * c * (Dbl.one / 2) := by
      conv_lhs => rw [Dbl.one_eq_two_mul_half]
      ring
    rw [Dbl.mulTen, hmag, e]
    exact Dbl.ofRatio_half_integer true (2 * c) hj
  have hfloor : (Dbl.mulTen (Dbl.finite true mag)).floorInt = some (-(c : Int)) := by
    rw [hten, Dbl.floorInt, ceil_div_mul Dbl.one c hpos]
  have hneg : ¬ (0 : Int) ≤ -(c : Int) := by omega
  have h := rawCoord_of_floorInt (Dbl.finite true mag) (-(c : Int)) hfloor
    (by unfold INT_MIN; omega) (by unfold INT_MAX; omega)
  rw [if_neg hneg] at h
  exact h

/-- C20 at the coordinate -1.23, whose tenfold value floors to -13: it is emitted
as -12. -/
theorem rawCoord_as_coded_witness :
    rawCoord (Dbl.finite true (5539427541665710 * 2 ^ 1022))
      = some (if (0 : Int) ≤ -13 then -13 else -13 + 1) :=
  (rawCoord_as_coded (Dbl.finite true (5539427541665710 * 2 ^ 1022)) (-13) (by decide)
    (by decide) (by decide)).1


/-! ## One result for every tokenized line -/

/-- C21: a line read while the instance section is open, that is skipped neither as
blank nor as comment and is not the closing `end`, either appends one record and
shows nothing, or shows one warning with its line number and appends nothing; never
both. At the end of the extraction of an opened file, the alerts shown are per-line
warnings, and the number of records plus the number of these warnings is the number
of lines of the instance section that are not skipped. -/
theorem Extract_one_result_per_line (files : Str → Option (List Str)) (app : App)
    (path : Str) (lines : List Str) (hpath : app.m_InputPath = some path) (hne : path ≠ [])
    (hfile : files path = some lines) :
    (∀ (st : ExtractState) (line l : Str), st.in_inst = true → stripLine line = some l →
      front l ≠ '#' → l ≠ ['e', 'n', 'd'] →
      ((∃ r, extractLine st line
          = (⟨true, st.lnum + 1, st.inst_list ++ [r], st.alerts⟩, false)) ∨
        (∃ a, lineWarning a (st.lnum + 1) line ∧
          extractLine st line
            = (⟨true, st.lnum + 1, st.inst_list, st.alerts ++ [a]⟩, false))) ∧
      ¬ ((∃ r, extractLine st line
          = (⟨true, st.lnum + 1, st.inst_list ++ [r], st.alerts⟩, false)) ∧
        (∃ a, lineWarning a (st.lnum + 1) line ∧
          extractLine st line
            = (⟨true, st.lnum + 1, st.inst_list, st.alerts ++ [a]⟩, false)))) ∧
    ∃ warnings, (Extract files app []).2.2.alerts = app.alerts ++ warnings ∧
      (∀ a ∈ warnings, ∃ k line, lines[k]? = some line ∧ lineWarning a (k + 1) line) ∧
      (Extract files app []).2.1.length + warnings.length
        = ((sectionBody lines).filter notSkipped).length := by
  refine ⟨fun st line l hin hs hc he => ⟨extractLine_data_cases st line l hin hs hc he, ?_⟩, ?_⟩
  · rintro ⟨⟨r, h1⟩, ⟨a, _, h2⟩⟩
    rw [h1] at h2
    simp at h2
  · obtain ⟨warnings, hw, hall⟩ := extractLoop_alerts ⟨false, 0, [], app.alerts⟩ lines
    have hcount := extractLoop_count ⟨false, 0, [], app.alerts⟩ lines rfl
    rw [hw] at hcount
    rw [Extract_opened files app path lines [] hpath hne hfile]
    refine ⟨warnings, hw, fun a ha => ?_, ?_⟩
    · obtain ⟨k, line, hk, hlw⟩ := hall a ha
      exact ⟨k, line, hk, by simpa using hlw⟩
    · simp only [List.length_append, List.length_nil] at hcount
      simp only
      omega

/-- C21 at a file whose section holds a record, an empty line, a comment, a short
line, a line whose identifier does not convert, and lines after the closing `end`:
one record and three warnings for the four lines that are tokenized. -/
theorem Extract_one_result_per_line_witness :
    (Extract
        (oneFile "a.ipl".toList
          ["inst".toList, "1, 2, 3, 4, 5, 6".toList, [], "# comment".toList,
            "abc, 1, 2".toList, "x, 0, 0, 1, 2, 3".toList, "end".toList,
            "7, 8, 9, 1, 2, 3".toList])
        ⟨some "a.ipl".toList, "HideMapObject".toList, [], []⟩ []).2.2.alerts
      = [Alert.wrongTokenCount 3, Alert.wrongTokenCount 5, Alert.unableToExtract 6] ∧
    ∃ warnings,
      (Extract
          (oneFile "a.ipl".toList
            ["inst".toList, "1, 2, 3, 4, 5, 6".toList, [], "# comment".toList,
              "abc, 1, 2".toList, "x, 0, 0, 1, 2, 3".toList, "end".toList,
              "7, 8, 9, 1, 2, 3".toList])
          ⟨some "a.ipl".toList, "HideMapObject".toList, [], []⟩ []).2.2.alerts
        = [] ++ warnings ∧
      (∀ a ∈ warnings, ∃ k line,
        ["inst".toList, "1, 2, 3, 4, 5, 6".toList, [], "# comment".toList,
          "abc, 1, 2".toList, "x, 0, 0, 1, 2, 3".toList, "end".toList,
          "7, 8, 9, 1, 2, 3".toList][k]? = some line ∧ lineWarning a (k + 1) line) ∧
      (Extract
          (oneFile "a.ipl".toList
            ["inst".toList, "1, 2, 3, 4, 5, 6".toList, [], "# comment".toList,
              "abc, 1, 2".toList, "x, 0, 0, 1, 2, 3".toList, "end".toList,
              "7, 8, 9, 1, 2, 3".toList])
          ⟨some "a.ipl".toList, "HideMapObject".toList, [], []⟩ []).2.1.length
          + warnings.length
        = ((sectionBody
            ["inst".toList, "1, 2, 3, 4, 5, 6".toList, [], "# comment".toList,
              "abc, 1, 2".toList, "x, 0, 0, 1, 2, 3".toList, "end".toList,
              "7, 8, 9, 1, 2, 3".toList]).filter notSkipped).length :=
  ⟨by decide,
    (Extract_one_result_per_line (oneFile "a.ipl".toList
        ["inst".toList, "1, 2, 3, 4, 5, 6".toList, [], "# comment".toList,
          "abc, 1, 2".toList, "x, 0, 0, 1, 2, 3".toList, "end".toList,
          "7, 8, 9, 1, 2, 3".toList])
      ⟨some "a.ipl".toList, "HideMapObject".toList, [], []⟩ "a.ipl".toList _ rfl (by decide)
      (by decide)).2⟩

/-! ## Markers followed by a trailing character -/

/-- C22: the leading space of a line is stripped before the markers are compared and
nothing is stripped at its end. After any leading space, `inst` opens a closed section
and `end` leaves the loop of an open one; followed by any character, `inst` does not
open the section, and `end` does not leave the loop: the line is tokenized, shows a
warning with its number, appends nothing, and the lines after it are read. When what
follows `end` is made of separators (space, tab, carriage return), the warning is the
wrong number of tokens. So it is for the lines `inst\r`, `inst `, `end ` and `end\r`,
and a record after a line `end\r` is extracted. -/
theorem marker_with_trailing_character (st : ExtractState) (lead trailing : Str) (c : Char)
    (rest : List Str) (hlead : ∀ d ∈ lead, isspace d = true) :
    (st.in_inst = false →
      extractLine st (lead ++ ['i', 'n', 's', 't'])
        = (⟨true, st.lnum + 1, st.inst_list, st.alerts⟩, false) ∧
      extractLine st (lead ++ ['i', 'n', 's', 't'] ++ c :: trailing)
        = (⟨false, st.lnum + 1, st.inst_list, st.alerts⟩, false)) ∧
    (st.in_inst = true →
      extractLine st (lead ++ ['e', 'n', 'd'])
        = (⟨true, st.lnum + 1, st.inst_list, st.alerts⟩, true) ∧
      (∃ a, lineWarning a (st.lnum + 1) (lead ++ ['e', 'n', 'd'] ++ c :: trailing) ∧
        extractLine st (lead ++ ['e', 'n', 'd'] ++ c :: trailing)
          = (⟨true, st.lnum + 1, st.inst_list, st.alerts ++ [a]⟩, false) ∧
        extractLoop st ((lead ++ ['e', 'n', 'd'] ++ c :: trailing) :: rest)
          = extractLoop ⟨true, st.lnum + 1, st.inst_list, st.alerts ++ [a]⟩ rest) ∧
      ((∀ d ∈ c :: trailing, Tokens.get_table d = true) →
        extractLine st (lead ++ ['e', 'n', 'd'] ++ c :: trailing)
          = (⟨true, st.lnum + 1, st.inst_list,
              st.alerts ++ [Alert.wrongTokenCount (st.lnum + 1)]⟩, false))) ∧
    extractLine ⟨false, 0, [], []⟩ "inst\r".toList = (⟨false, 1, [], []⟩, false) ∧
    extractLine ⟨false, 0, [], []⟩ "inst ".toList = (⟨false, 1, [], []⟩, false) ∧
    extractLine ⟨true, 1, [], []⟩ "end ".toList
      = (⟨true, 2, [], [Alert.wrongTokenCount 2]⟩, false) ∧
    extractLine ⟨true, 1, [], []⟩ "end\r".toList
      = (⟨true, 2, [], [Alert.wrongTokenCount 2]⟩, false) ∧
    Extract
        (oneFile "a.ipl".toList
          ["inst".toList, "end\r".toList, "1, 2, 3, 4, 5, 6".toList, "end".toList])
        ⟨some "a.ipl".toList, "HideMapObject".toList, [], []⟩ []
      = (true, [Instance.mk 1 (Dbl.finite false (4 * Dbl.one)) (Dbl.finite false (5 * Dbl.one))
            (Dbl.finite false (6 * Dbl.one))],
          ⟨some "a.ipl".toList, "HideMapObject".toList, [], [Alert.wrongTokenCount 2]⟩) ∧
    (Extract
        (oneFile "a.ipl".toList
          ["inst\r".toList, "1, 2, 3, 4, 5, 6\r".toList, "end\r".toList])
        ⟨some "a.ipl".toList, "HideMapObject".toList, [], []⟩ []).1 = false := by
  have hinst : stripLine (lead ++ ['i', 'n', 's', 't']) = some ['i', 'n', 's', 't'] :=
    stripLine_lead lead _ hlead (by simp) (by decide)
  have hinst2 : stripLine (lead ++ ['i', 'n', 's', 't'] ++ c :: trailing)
      = some (['i', 'n', 's', 't'] ++ c :: trailing) := by
    rw [List.append_assoc]
    exact stripLine_lead lead _ hlead (by simp) (by simp [front, isspace])
  have hend : stripLine (lead ++ ['e', 'n', 'd']) = some ['e', 'n', 'd'] :=
    stripLine_lead lead _ hlead (by simp) (by decide)
  have hend2 : stripLine (lead ++ ['e', 'n', 'd'] ++ c :: trailing)
      = some (['e', 'n', 'd'] ++ c :: trailing) := by
    rw [List.append_assoc]
    exact stripLine_lead lead _ hlead (by simp) (by simp [front, isspace])
  have hne : ['e', 'n', 'd'] ++ c :: trailing ≠ ['e', 'n', 'd'] := by simp
  have hfront : front (['e', 'n', 'd'] ++ c :: trailing) ≠ '#' := by simp [front]
  refine ⟨fun hin => ⟨extractLine_inst st _ hin hinst, ?_⟩,
    fun hin => ⟨extractLine_end st _ hin hend, ?_, fun hsep => ?_⟩,
    by decide, by decide, by decide, by decide, by decide, by decide⟩
  · rw [extractLine_outside st _ hin, hinst2]
    simp
  · have h0 : stoi ((Explode (lead ++ ['e', 'n', 'd'] ++ c :: trailing)).getD 0 []) = none := by
      rw [← Explode_stripLine _ _ hend2]
      obtain ⟨t, ts, ht⟩ := Explode_cons_of_not_sep 'e' ('n' :: 'd' :: c :: trailing) (by decide)
      have e : ['e', 'n', 'd'] ++ c :: trailing = 'e' :: 'n' :: 'd' :: c :: trailing := rfl
      rw [e, ht]
      exact stoi_e t
    obtain ⟨a, hw, hstep⟩ := extractLine_data_warns st _ _ hin hend2 hfront hne h0
    exact ⟨a, hw, hstep, extractLoop_cons_continue _ _ _ _ hstep⟩
  · have hlen : (Explode (lead ++ ['e', 'n', 'd'] ++ c :: trailing)).length < 6 := by
      rw [← Explode_stripLine _ _ hend2, Explode_end_seps _ hsep]
      decide
    rw [extractLine_data st _ _ hin hend2 hfront hne, if_pos hlen]

/-- C22 at the line ` end\r` read as the second line of an open section. -/
theorem marker_with_trailing_character_witness :
    extractLine ⟨true, 1, [], []⟩ ([' '] ++ ['e', 'n', 'd'] ++ '\r' :: [])
      = (⟨true, 1 + 1, [], [] ++ [Alert.wrongTokenCount (1 + 1)]⟩, false) :=
  ((marker_with_trailing_character ⟨true, 1, [], []⟩ [' '] [] '\r' [] (by decide)).2.1 rfl).2.2
    (by decide)

end VcMp
